import Mathlib

/-!
Verification of the zotero-mineru-dify ingestion pipeline against its
natural-language specification.

The development is a shallow embedding of the Python sources into Lean:

* text is modelled as `List Char` (one entry per Unicode code point, the
  unit Python's `len`/slicing works in);
* Python dicts are modelled as association lists (`alGet` returns the
  first binding, `alSet` replaces the first binding in place or appends,
  mirroring insertion-ordered `dict` semantics for duplicate-free key
  lists);
* `str.strip()` is modelled over the ASCII whitespace characters
  (space, tab, newline, carriage return, vertical tab, form feed);
* JSON-ish runtime values are modelled by `PyVal`; Python floats are
  modelled by exact rationals (no claim in this development compares
  float round-off).

Each section names the Python file and function it embeds.
-/

namespace ZMD

/-- Text is a list of characters, matching Python string indexing. -/
abbrev Str := List Char

/-- Convert a Lean string literal to the `List Char` text model. -/
def s2l (s : String) : Str := s.toList

/-- ASCII whitespace, the model of Python's `str.strip` character class. -/
def isPyWs (c : Char) : Bool :=
  c = ' ' || c = '\t' || c = '\n' || c = '\r' || c = '\x0b' || c = '\x0c'

/-- Model of Python `str.strip()`: drop leading and trailing whitespace. -/
def pyStrip (xs : Str) : Str :=
  ((xs.dropWhile isPyWs).reverse.dropWhile isPyWs).reverse

/-- Model of Python `str.split(sep)` for a one-character separator. -/
def splitOnChar (sep : Char) : Str → List Str
  | [] => [[]]
  | a :: rest =>
    match splitOnChar sep rest with
    | [] => [[a]]
    | h :: t => if a = sep then [] :: h :: t else (a :: h) :: t

/-- Model of Python `sep.join(parts)` for a one-character separator. -/
def joinChar (sep : Char) (parts : List Str) : Str :=
  List.intercalate [sep] parts

/-- Decimal digit test (`\d` for the ASCII inputs this pipeline handles). -/
def isDigitCh (c : Char) : Bool := '0' ≤ c && c ≤ '9'

/-- Association-list lookup: first binding wins, like a Python dict. -/
def alGet {α : Type} (l : List (String × α)) (k : String) : Option α :=
  match l with
  | [] => Option.none
  | (k2, v) :: rest => if k2 = k then some v else alGet rest k

/-- Association-list store: replace the first binding in place, else append
(insertion-ordered Python dict assignment). -/
def alSet {α : Type} (l : List (String × α)) (k : String) (v : α) : List (String × α) :=
  match l with
  | [] => [(k, v)]
  | (k2, v2) :: rest => if k2 = k then (k, v) :: rest else (k2, v2) :: alSet rest k v

theorem alGet_alSet_self {α : Type} (l : List (String × α)) (k : String) (v : α) :
    alGet (alSet l k v) k = some v := by
  induction l with
  | nil => simp [alGet, alSet]
  | cons h t ih =>
    obtain ⟨k2, v2⟩ := h
    by_cases hk : k2 = k
    · simp [alGet, alSet, hk]
    · simp [alGet, alSet, hk, ih]

theorem alGet_alSet_ne {α : Type} (l : List (String × α)) (k k2 : String) (v : α)
    (h : k2 ≠ k) : alGet (alSet l k2 v) k = alGet l k := by
  induction l with
  | nil => simp [alGet, alSet, h]
  | cons hd t ih =>
    obtain ⟨k3, v3⟩ := hd
    by_cases hk : k3 = k2
    · subst hk
      simp [alGet, alSet, h, (Ne.symm h)]
    · by_cases hk2 : k3 = k
      · subst hk2
        simp [alGet, alSet, hk]
      · simp [alGet, alSet, hk, hk2, ih]

/-- Two-level dict lookup `d.get(cat, {}).get(key)`. -/
def alGet2 {α : Type} (l : List (String × List (String × α))) (cat key : String) : Option α :=
  match alGet l cat with
  | Option.none => Option.none
  | some inner => alGet inner key

end ZMD

namespace ZMD.Config

/-!
Embedding of `src/services/config_schema.py` and the update path of
`src/services/runtime_config.py` (`RuntimeConfigProvider.update`).
-/

/-- Runtime value of a configuration field (the JSON-ish values the Python
code passes around).  Floats are modelled as exact rationals. -/
inductive PyVal where
  | vstr (s : Str)
  | vint (n : Int)
  | vflt (q : Rat)
  | vbool (b : Bool)
  | vnone
  deriving DecidableEq, Repr

/-- Schema field type tag (`"str" | "int" | "float" | "bool" | "select"`). -/
inductive FType where
  | tstr | tint | tflt | tbool | tselect
  deriving DecidableEq, Repr

/-- One field description of `CONFIG_SCHEMA` (labels are irrelevant to the
semantics and omitted). -/
structure FieldSpec where
  ftype : FType
  dflt : PyVal
  vmin : Option Int := Option.none
  vmax : Option Int := Option.none
  options : List Str := []
  sensitive : Bool := false
  deriving DecidableEq, Repr

abbrev CfgData := List (String × List (String × PyVal))
abbrev Schema := List (String × List (String × FieldSpec))

private def fs (d : String) (sens : Bool := false) : FieldSpec :=
  { ftype := FType.tstr, dflt := PyVal.vstr (s2l d), sensitive := sens }

private def fb (d : Bool) : FieldSpec :=
  { ftype := FType.tbool, dflt := PyVal.vbool d }

private def fi (d lo hi : Int) : FieldSpec :=
  { ftype := FType.tint, dflt := PyVal.vint d, vmin := some lo, vmax := some hi }

private def ff (d : Rat) (lo hi : Int) : FieldSpec :=
  { ftype := FType.tflt, dflt := PyVal.vflt d, vmin := some lo, vmax := some hi }

private def fsel (d : String) (opts : List String) : FieldSpec :=
  { ftype := FType.tselect, dflt := PyVal.vstr (s2l d), options := opts.map s2l }

/-- `CONFIG_SCHEMA` from `src/services/config_schema.py` (types, defaults,
ranges, options and sensitivity flags; UI labels dropped). -/
def CONFIG_SCHEMA : Schema :=
  [ ("zotero",
      [ ("mcp_url", fs "http://127.0.0.1:23120/mcp"),
        ("collection_keys", fs ""),
        ("collection_recursive", fb true),
        ("collection_page_size", fi 50 1 500) ]),
    ("mineru",
      [ ("api_token", fs "" true),
        ("model_version", fsel "vlm" ["vlm", "doc"]),
        ("poll_timeout_s", fi 7200 60 86400),
        ("asset_output_dir", fs "outputs/mineru_assets") ]),
    ("dify",
      [ ("api_key", fs "" true),
        ("base_url", fs "https://api.dify.ai/v1"),
        ("dataset_name", fs "Zotero Literature"),
        ("pipeline_file", fs ""),
        ("process_mode", fsel "custom" ["custom", "automatic"]),
        ("segment_separator", fs "\\n\\n"),
        ("segment_max_tokens", fi 800 100 10000),
        ("chunk_overlap", fi 0 0 1000),
        ("parent_mode", fs "paragraph"),
        ("subchunk_separator", fs "\\n"),
        ("subchunk_max_tokens", fi 256 50 5000),
        ("subchunk_overlap", fi 0 0 500),
        ("remove_extra_spaces", fb true),
        ("remove_urls_emails", fb false),
        ("index_max_wait_s", fi 1800 60 7200),
        ("doc_form", fs ""),
        ("doc_language", fs ""),
        ("upload_delay", fi 1 0 30) ]),
    ("md_clean",
      [ ("enabled", fb true),
        ("collapse_blank_lines", fb true),
        ("strip_html", fb true),
        ("remove_control_chars", fb true),
        ("remove_image_placeholders", fb true),
        ("remove_page_numbers", fb false),
        ("remove_watermark", fb false),
        ("watermark_patterns", fs "") ]),
    ("image_summary",
      [ ("enabled", fb true),
        ("api_base_url", fs "https://api.openai.com/v1"),
        ("api_key", fs "" true),
        ("model", fs "gpt-4.1-mini"),
        ("request_timeout_s", fi 120 10 600),
        ("max_context_chars", fi 3000 500 20000),
        ("max_images_per_doc", fi 50 0 500),
        ("max_tokens", fi 900 128 4000),
        ("temperature", ff (1 / 10) 0 2) ]),
    ("smart_split",
      [ ("enabled", fb true),
        ("strategy", fsel "paragraph_wrap" ["paragraph_wrap", "semantic"]),
        ("split_marker", fs "<!--split-->"),
        ("max_length", fi 1200 200 10000),
        ("min_length", fi 300 50 5000),
        ("min_split_score", ff 7 0 50),
        ("heading_score_bonus", ff 10 0 50),
        ("sentence_end_score_bonus", ff 6 0 50),
        ("sentence_integrity_weight", ff 8 0 50),
        ("length_score_factor", fi 100 1 1000),
        ("search_window", fi 5 1 20),
        ("heading_after_penalty", ff 12 0 50),
        ("force_split_before_heading", fb true),
        ("heading_cooldown_elements", fi 2 0 10),
        ("custom_heading_regex", fs "") ]) ]

/-- Look a field spec up in the schema
(`CONFIG_SCHEMA.get(category, {}).get(key)`). -/
def schemaField (cat key : String) : Option FieldSpec :=
  alGet2 CONFIG_SCHEMA cat key

/-- `build_defaults()`. -/
def buildDefaults : CfgData :=
  CONFIG_SCHEMA.map (fun cf => (cf.1, cf.2.map (fun ks => (ks.1, ks.2.dflt))))

/-- Model of Python `str(value)` for the value forms that occur here.
Floats are rendered from the exact rational (Python renders the shortest
float `repr`; the two agree on every literal in this development). -/
def pyStr (v : PyVal) : Str :=
  match v with
  | PyVal.vstr s => s
  | PyVal.vint n => s2l (toString n)
  | PyVal.vflt q => s2l (toString q)
  | PyVal.vbool b => if b then s2l "True" else s2l "False"
  | PyVal.vnone => s2l "None"

/-- Model of Python `int(value)`: `None` for inputs `int()` rejects.
String parsing is modelled for plain optionally-signed decimal literals. -/
def pyToInt (v : PyVal) : Option Int :=
  match v with
  | PyVal.vint n => some n
  | PyVal.vbool b => some (if b then 1 else 0)
  | PyVal.vflt q => some q.floor
  | PyVal.vstr s =>
    let t := pyStrip s
    match t with
    | '-' :: ds => if ds ≠ [] ∧ ds.all isDigitCh then some (-(strToNat ds)) else Option.none
    | '+' :: ds => if ds ≠ [] ∧ ds.all isDigitCh then some (strToNat ds) else Option.none
    | ds => if ds ≠ [] ∧ ds.all isDigitCh then some (strToNat ds) else Option.none
  | PyVal.vnone => Option.none
where
  strToNat (ds : Str) : Nat :=
    ds.foldl (fun acc c => acc * 10 + (c.toNat - '0'.toNat)) 0

/-- Model of Python `float(value)` (strings restricted to plain decimal
literals, which is all this development evaluates). -/
def pyToFloat (v : PyVal) : Option Rat :=
  match v with
  | PyVal.vint n => some (n : Rat)
  | PyVal.vflt q => some q
  | PyVal.vbool b => some (if b then 1 else 0)
  | PyVal.vstr s =>
    let t := pyStrip s
    match pyToInt (PyVal.vstr t) with
    | some n => some (n : Rat)
    | Option.none => Option.none
  | PyVal.vnone => Option.none

/-- Python `str(value).strip().lower()` membership in
`("true", "1", "yes", "on")`; `.lower()` is modelled over ASCII. -/
def truthyStr (v : PyVal) : Bool :=
  let t := (pyStrip (pyStr v)).map Char.toLower
  t = s2l "true" || t = s2l "1" || t = s2l "yes" || t = s2l "on"

/-- `_coerce_value(value, spec)` from `src/services/config_schema.py`. -/
def coerceValue (v : PyVal) (spec : FieldSpec) : PyVal :=
  if v = PyVal.vnone ∨ v = PyVal.vstr [] then spec.dflt
  else
    match spec.ftype with
    | FType.tbool =>
      match v with
      | PyVal.vbool b => PyVal.vbool b
      | _ => PyVal.vbool (truthyStr v)
    | FType.tint =>
      match pyToInt v with
      | some n =>
        let n := match spec.vmin with | some lo => max lo n | Option.none => n
        let n := match spec.vmax with | some hi => min hi n | Option.none => n
        PyVal.vint n
      | Option.none => spec.dflt
    | FType.tflt =>
      match pyToFloat v with
      | some q =>
        let q := match spec.vmin with | some lo => max (lo : Rat) q | Option.none => q
        let q := match spec.vmax with | some hi => min (hi : Rat) q | Option.none => q
        PyVal.vflt q
      | Option.none => spec.dflt
    | FType.tselect =>
      let s := pyStrip (pyStr v)
      if s ∈ spec.options then PyVal.vstr s else spec.dflt
    | FType.tstr => PyVal.vstr (pyStr v)

/-- The value `validate_and_coerce` stores for one schema field. -/
def coercedFieldVal (data : CfgData) (cat key : String) (spec : FieldSpec) : PyVal :=
  match alGet2 data cat key with
  | some v => coerceValue v spec
  | Option.none => spec.dflt

/-- One category of `validate_and_coerce` output. -/
def coerceCat (data : CfgData) (cat : String) (fields : List (String × FieldSpec)) :
    List (String × PyVal) :=
  fields.map (fun ks => (ks.1, coercedFieldVal data cat ks.1 ks.2))

/-- `validate_and_coerce(data)`: start from defaults, coerce each schema
field present in `data`. -/
def validateAndCoerce (data : CfgData) : CfgData :=
  CONFIG_SCHEMA.map (fun cf => (cf.1, coerceCat data cf.1 cf.2))

/-- The value `mask_sensitive` reports for one schema field
(`cat_data.get(key, spec["default"])`, masked when sensitive and longer
than four characters). -/
def maskedFieldVal (data : CfgData) (cat key : String) (spec : FieldSpec) : PyVal :=
  let v := (alGet2 data cat key).getD spec.dflt
  match v with
  | PyVal.vstr s =>
    if spec.sensitive ∧ s.length > 4 then
      PyVal.vstr (List.replicate (s.length - 4) '*' ++ s.drop (s.length - 4))
    else PyVal.vstr s
  | other => other

/-- One category of `mask_sensitive` output. -/
def maskCat (data : CfgData) (cat : String) (fields : List (String × FieldSpec)) :
    List (String × PyVal) :=
  fields.map (fun ks => (ks.1, maskedFieldVal data cat ks.1 ks.2))

/-- `mask_sensitive(data)`: walk the schema; sensitive string values longer
than four characters are replaced by one `*` per hidden character plus the
last four characters. -/
def maskSensitive (data : CfgData) : CfgData :=
  CONFIG_SCHEMA.map (fun cf => (cf.1, maskCat data cf.1 cf.2))

/-- Provider state: the validated data plus the monotone version counter
(`RuntimeConfigProvider._data` / `_version`). -/
structure ProviderState where
  data : CfgData
  version : Nat
  deriving Repr

abbrev Patch := List (String × List (String × PyVal))

/-- One `merged[category][key] = value` assignment
(the category entry is guaranteed to exist by the caller). -/
def setField (m : CfgData) (cat key : String) (v : PyVal) : CfgData :=
  alSet m cat (alSet ((alGet m cat).getD []) key v)

/-- The masked-echo guard of `RuntimeConfigProvider.update`: a sensitive
field receiving a string equal to its current masked view is skipped. -/
def mergeSkip (currentMasked : CfgData) (schemaFields : List (String × FieldSpec))
    (cat : String) (kv : String × PyVal) : Bool :=
  (match alGet schemaFields kv.1 with
    | some spec => spec.sensitive
    | Option.none => false) &&
  (match kv.2, alGet2 currentMasked cat kv.1 with
    | PyVal.vstr v, some (PyVal.vstr mv) => decide (v = mv)
    | _, _ => false)

/-- One iteration of the inner merge loop of `RuntimeConfigProvider.update`:
write `merged[category][key] = value` unless the masked-echo guard skips it. -/
def mergeField (currentMasked : CfgData) (schemaFields : List (String × FieldSpec))
    (cat : String) (m : CfgData) (kv : String × PyVal) : CfgData :=
  if mergeSkip currentMasked schemaFields cat kv then m else setField m cat kv.1 kv.2

/-- One iteration of the outer merge loop of `RuntimeConfigProvider.update`:
ensure the category dict exists, then merge the patched fields. -/
def mergeCategory (currentMasked : CfgData) (m : CfgData)
    (catFields : String × List (String × PyVal)) : CfgData :=
  let cat := catFields.1
  let m := if (alGet m cat).isSome then m else alSet m cat []
  let schemaFields := (alGet CONFIG_SCHEMA cat).getD []
  catFields.2.foldl (mergeField currentMasked schemaFields cat) m

/-- `RuntimeConfigProvider.update(patch)` from
`src/services/runtime_config.py`: deep-copy merge with masked-echo
protection, then validate, bump the version, persist (persistence is
outside the model) and return the masked view.  Patches are modelled as
dicts of dicts; the Python guard skipping non-dict category values is
subsumed by the type. -/
def rcpUpdate (st : ProviderState) (patch : Patch) : ProviderState × CfgData :=
  let currentMasked := maskSensitive st.data
  let merged := patch.foldl (mergeCategory currentMasked) st.data
  let validated := validateAndCoerce merged
  ({ data := validated, version := st.version + 1 }, maskSensitive validated)

theorem alGet_mem {α : Type} (l : List (String × α)) (k : String) (v : α)
    (h : alGet l k = some v) : v ∈ l.map Prod.snd := by
  induction l with
  | nil => simp [alGet] at h
  | cons hd t ih =>
    obtain ⟨k2, v2⟩ := hd
    by_cases hk : k2 = k
    · simp [alGet, hk] at h
      simp [h]
    · simp [alGet, hk] at h
      simp [ih h]

theorem alGet_maskSensitive (data : CfgData) (l : Schema) (cat : String) :
    alGet (l.map (fun cf => (cf.1, maskCat data cf.1 cf.2))) cat =
      (alGet l cat).map (maskCat data cat) := by
  induction l with
  | nil => simp [alGet]
  | cons h t ih =>
    obtain ⟨k2, v2⟩ := h
    by_cases hk : k2 = cat
    · subst hk
      simp [alGet]
    · simp [alGet, hk, ih]

theorem alGet_maskCat (data : CfgData) (cat : String) (fields : List (String × FieldSpec))
    (key : String) :
    alGet (maskCat data cat fields) key =
      (alGet fields key).map (maskedFieldVal data cat key) := by
  induction fields with
  | nil => simp [alGet, maskCat]
  | cons h t ih =>
    obtain ⟨k2, v2⟩ := h
    by_cases hk : k2 = key
    · subst hk
      simp [alGet, maskCat]
    · simpa [alGet, maskCat, hk] using ih

theorem alGet2_maskSensitive (data : CfgData) (cat key : String) (spec : FieldSpec)
    (h : schemaField cat key = some spec) :
    alGet2 (maskSensitive data) cat key = some (maskedFieldVal data cat key spec) := by
  unfold schemaField alGet2 at h
  unfold alGet2 maskSensitive
  rw [alGet_maskSensitive]
  cases hc : alGet CONFIG_SCHEMA cat with
  | none => rw [hc] at h; simp at h
  | some fields =>
    rw [hc] at h
    simp at h
    simp [alGet_maskCat, h]

theorem alGet_validateAndCoerce (data : CfgData) (l : Schema) (cat : String) :
    alGet (l.map (fun cf => (cf.1, coerceCat data cf.1 cf.2))) cat =
      (alGet l cat).map (coerceCat data cat) := by
  induction l with
  | nil => simp [alGet]
  | cons h t ih =>
    obtain ⟨k2, v2⟩ := h
    by_cases hk : k2 = cat
    · subst hk
      simp [alGet]
    · simp [alGet, hk, ih]

theorem alGet_coerceCat (data : CfgData) (cat : String) (fields : List (String × FieldSpec))
    (key : String) :
    alGet (coerceCat data cat fields) key =
      (alGet fields key).map (coercedFieldVal data cat key) := by
  induction fields with
  | nil => simp [alGet, coerceCat]
  | cons h t ih =>
    obtain ⟨k2, v2⟩ := h
    by_cases hk : k2 = key
    · subst hk
      simp [alGet, coerceCat]
    · simpa [alGet, coerceCat, hk] using ih

theorem alGet2_validateAndCoerce (data : CfgData) (cat key : String) (spec : FieldSpec)
    (h : schemaField cat key = some spec) :
    alGet2 (validateAndCoerce data) cat key = some (coercedFieldVal data cat key spec) := by
  unfold schemaField alGet2 at h
  unfold alGet2 validateAndCoerce
  rw [alGet_validateAndCoerce]
  cases hc : alGet CONFIG_SCHEMA cat with
  | none => rw [hc] at h; simp at h
  | some fields =>
    rw [hc] at h
    simp at h
    simp [alGet_coerceCat, h]

/-- In the concrete schema, every sensitive field is a string field whose
default is the empty string. -/
theorem sensitive_fields_are_str (cat key : String) (spec : FieldSpec)
    (h : schemaField cat key = some spec) (hs : spec.sensitive = true) :
    spec.ftype = FType.tstr ∧ spec.dflt = PyVal.vstr [] := by
  unfold schemaField alGet2 at h
  cases hc : alGet CONFIG_SCHEMA cat with
  | none => rw [hc] at h; simp at h
  | some fields =>
    rw [hc] at h
    have hf : fields ∈ CONFIG_SCHEMA.map Prod.snd := alGet_mem _ _ _ hc
    have hspec : spec ∈ fields.map Prod.snd := alGet_mem _ _ _ h
    have hall : ∀ fl ∈ CONFIG_SCHEMA.map Prod.snd, ∀ sp ∈ fl.map Prod.snd,
        sp.sensitive = true → sp.ftype = FType.tstr ∧ sp.dflt = PyVal.vstr [] := by decide
    exact hall fields hf spec hspec hs

theorem alGet2_setField_same_cat_ne_key (m : CfgData) (cat key key2 : String) (v : PyVal)
    (hk : key2 ≠ key) : alGet2 (setField m cat key2 v) cat key = alGet2 m cat key := by
  unfold setField alGet2
  rw [alGet_alSet_self]
  cases hc : alGet m cat with
  | none => simp [hc, alGet_alSet_ne _ _ _ _ hk, alGet, hk]
  | some inner => simp [hc, alGet_alSet_ne _ _ _ _ hk]

theorem alGet2_setField_ne_cat (m : CfgData) (cat2 cat key2 key : String) (v : PyVal)
    (hc : cat2 ≠ cat) : alGet2 (setField m cat2 key2 v) cat key = alGet2 m cat key := by
  unfold setField alGet2
  rw [alGet_alSet_ne _ _ _ _ hc]

theorem alGet2_alSet_empty_ne (m : CfgData) (cat2 cat key : String) (hc : cat2 ≠ cat) :
    alGet2 (alSet m cat2 []) cat key = alGet2 m cat key := by
  unfold alGet2
  rw [alGet_alSet_ne _ _ _ _ hc]

theorem mergeField_preserves_ne_cat (cm : CfgData) (sf : List (String × FieldSpec))
    (cat2 cat key : String) (hc : cat2 ≠ cat) (m : CfgData) (kv : String × PyVal) :
    alGet2 (mergeField cm sf cat2 m kv) cat key = alGet2 m cat key := by
  unfold mergeField
  by_cases hskip : mergeSkip cm sf cat2 kv
  · simp [hskip]
  · simp [hskip, alGet2_setField_ne_cat _ _ _ _ _ _ hc]

theorem innerFold_preserves_ne_cat (cm : CfgData) (sf : List (String × FieldSpec))
    (cat2 cat key : String) (hc : cat2 ≠ cat) (fields2 : List (String × PyVal)) :
    ∀ m : CfgData, alGet2 (fields2.foldl (mergeField cm sf cat2) m) cat key = alGet2 m cat key := by
  induction fields2 with
  | nil => intro m; rfl
  | cons kv rest ih =>
    intro m
    simp only [List.foldl_cons]
    rw [ih, mergeField_preserves_ne_cat cm sf cat2 cat key hc]

theorem innerFold_preserves_masked_echo (cm : CfgData) (sf : List (String × FieldSpec))
    (cat key : String) (v : Str) (spec : FieldSpec)
    (hsf : alGet sf key = some spec) (hsens : spec.sensitive = true)
    (hmv : alGet2 cm cat key = some (PyVal.vstr v))
    (fields2 : List (String × PyVal))
    (hfields : ∀ kv ∈ fields2, kv.1 = key → kv.2 = PyVal.vstr v) :
    ∀ m s, alGet2 m cat key = some (PyVal.vstr s) →
      alGet2 (fields2.foldl (mergeField cm sf cat) m) cat key = some (PyVal.vstr s) := by
  induction fields2 with
  | nil => intro m s hm; exact hm
  | cons kv rest ih =>
    intro m s hm
    simp only [List.foldl_cons]
    have hrest : ∀ kv2 ∈ rest, kv2.1 = key → kv2.2 = PyVal.vstr v := by
      intro kv2 hkv2 hk
      exact hfields kv2 (List.mem_cons_of_mem _ hkv2) hk
    by_cases hk : kv.1 = key
    · have hv2 : kv.2 = PyVal.vstr v := hfields kv (List.mem_cons_self _ _) hk
      have hstep : mergeField cm sf cat m kv = m := by
        unfold mergeField mergeSkip
        rw [hk, hv2, hsf, hmv]
        simp [hsens]
      rw [hstep]
      exact ih hrest m s hm
    · have hstep : alGet2 (mergeField cm sf cat m kv) cat key = some (PyVal.vstr s) := by
        unfold mergeField
        by_cases hskip : mergeSkip cm sf cat kv
        · simp only [hskip, if_pos]; exact hm
        · simp only [hskip, if_neg, Bool.false_eq_true, not_false_iff]
          rw [alGet2_setField_same_cat_ne_key _ _ _ _ _ hk]
          exact hm
      exact ih hrest _ s hstep

theorem outerFold_preserves_masked_echo (cm : CfgData) (cat key : String) (v : Str)
    (spec : FieldSpec) (fields : List (String × FieldSpec))
    (hcat : alGet CONFIG_SCHEMA cat = some fields) (hsf : alGet fields key = some spec)
    (hsens : spec.sensitive = true)
    (hmv : alGet2 cm cat key = some (PyVal.vstr v))
    (patch : Patch)
    (hpatch : ∀ cf ∈ patch, cf.1 = cat → ∀ kv ∈ cf.2, kv.1 = key → kv.2 = PyVal.vstr v) :
    ∀ m s, alGet2 m cat key = some (PyVal.vstr s) →
      alGet2 (patch.foldl (mergeCategory cm) m) cat key = some (PyVal.vstr s) := by
  induction patch with
  | nil => intro m s hm; exact hm
  | cons cf rest ih =>
    intro m s hm
    have hrest : ∀ cf2 ∈ rest, cf2.1 = cat → ∀ kv ∈ cf2.2, kv.1 = key → kv.2 = PyVal.vstr v := by
      intro cf2 hcf2
      exact hpatch cf2 (List.mem_cons_of_mem _ hcf2)
    simp only [List.foldl_cons]
    by_cases hc : cf.1 = cat
    · have hsome : (alGet m cf.1).isSome := by
        rw [hc]
        unfold alGet2 at hm
        cases hg : alGet m cat with
        | none => rw [hg] at hm; simp at hm
        | some inner => simp
      have hstep : alGet2 (mergeCategory cm m cf) cat key = some (PyVal.vstr s) := by
        unfold mergeCategory
        simp only [hsome, if_pos]
        rw [hc, hcat]
        exact innerFold_preserves_masked_echo cm fields cat key v spec hsf hsens hmv cf.2
          (hpatch cf (List.mem_cons_self _ _) hc) m s hm
      exact ih hrest _ s hstep
    · have hstep : alGet2 (mergeCategory cm m cf) cat key = some (PyVal.vstr s) := by
        unfold mergeCategory
        by_cases hsome : (alGet m cf.1).isSome
        · simp only [hsome, if_pos]
          rw [innerFold_preserves_ne_cat cm _ cf.1 cat key hc]
          exact hm
        · simp only [hsome, if_neg, Bool.false_eq_true, not_false_iff]
          rw [innerFold_preserves_ne_cat cm _ cf.1 cat key hc]
          rw [alGet2_alSet_empty_ne _ _ _ _ hc]
          exact hm
      exact ih hrest _ s hstep

/-- C2 (confirmed): if an update patch supplies, for a sensitive schema
field, a string exactly equal to that field's current masked
representation, the update ignores it: the stored secret is unchanged
while the configuration version still increases by one. -/
theorem C2_masked_echo_protection (st : ProviderState) (patch : Patch)
    (cat key : String) (spec : FieldSpec) (v s : Str)
    (hschema : schemaField cat key = some spec)
    (hsens : spec.sensitive = true)
    (hmasked : alGet2 (maskSensitive st.data) cat key = some (PyVal.vstr v))
    (hpatch : ∀ cf ∈ patch, cf.1 = cat → ∀ kv ∈ cf.2, kv.1 = key → kv.2 = PyVal.vstr v)
    (hstored : alGet2 st.data cat key = some (PyVal.vstr s)) :
    alGet2 (rcpUpdate st patch).1.data cat key = some (PyVal.vstr s) ∧
      (rcpUpdate st patch).1.version = st.version + 1 := by
  have hcat : ∃ fields, alGet CONFIG_SCHEMA cat = some fields ∧ alGet fields key = some spec := by
    unfold schemaField alGet2 at hschema
    cases hc : alGet CONFIG_SCHEMA cat with
    | none => rw [hc] at hschema; simp at hschema
    | some fields => rw [hc] at hschema; exact ⟨fields, rfl, hschema⟩
  obtain ⟨fields, hc, hf⟩ := hcat
  have hmerged : alGet2 (patch.foldl (mergeCategory (maskSensitive st.data)) st.data) cat key =
      some (PyVal.vstr s) :=
    outerFold_preserves_masked_echo (maskSensitive st.data) cat key v spec fields hc hf hsens
      hmasked patch hpatch st.data s hstored
  constructor
  · show alGet2 (validateAndCoerce (patch.foldl (mergeCategory (maskSensitive st.data)) st.data))
      cat key = some (PyVal.vstr s)
    rw [alGet2_validateAndCoerce _ _ _ _ hschema]
    unfold coercedFieldVal
    rw [hmerged]
    obtain ⟨hty, hdf⟩ := sensitive_fields_are_str cat key spec hschema hsens
    by_cases hnil : s = []
    · subst hnil
      simp [coerceValue, hdf]
    · simp [coerceValue, hnil, hty, pyStr]
  · rfl

/-- C2 witness: a concrete state whose `dify.api_key` is
`"sk-abcdefghij"`, patched with the masked echo `"*********ghij"`. -/
theorem C2_masked_echo_protection_witness :
    alGet2 (rcpUpdate
        { data := validateAndCoerce [("dify", [("api_key", PyVal.vstr (s2l "sk-abcdefghij"))])],
          version := 1 }
        [("dify", [("api_key", PyVal.vstr (s2l "*********ghij"))])]).1.data
      "dify" "api_key" = some (PyVal.vstr (s2l "sk-abcdefghij")) ∧
    (rcpUpdate
        { data := validateAndCoerce [("dify", [("api_key", PyVal.vstr (s2l "sk-abcdefghij"))])],
          version := 1 }
        [("dify", [("api_key", PyVal.vstr (s2l "*********ghij"))])]).1.version = 2 :=
  C2_masked_echo_protection _ _ "dify" "api_key"
    { ftype := FType.tstr, dflt := PyVal.vstr (s2l ""), sensitive := true }
    (s2l "*********ghij") (s2l "sk-abcdefghij")
    (by decide) (by decide) (by decide)
    (by
      intro cf hcf hc kv hkv hk
      simp at hcf
      subst hcf
      simp at hkv
      subst hkv
      rfl)
    (by decide)

private def c3data : CfgData := [("dify", [("api_key", PyVal.vstr (s2l "sk-abcdefghij"))])]

/-- C3 counterexample: masking the stored value `"sk-abcdefghij"` yields
`"*********ghij"` (nine asterisks, one per hidden character), not the
constant-prefix `"******ghij"` the claim states. -/
theorem C3_mask_counterexample :
    alGet2 (maskSensitive c3data) "dify" "api_key" =
      some (PyVal.vstr (s2l "*********ghij")) ∧
    some (PyVal.vstr (s2l "*********ghij")) ≠ some (PyVal.vstr (s2l "******ghij")) := by
  constructor
  · decide
  · decide

/-- C3 (amended): masking a sensitive string longer than four characters
replaces it with one `*` per character beyond the last four, followed by
the value's last four characters (`"*" * (len - 4) + value[-4:]`). -/
theorem C3_mask_length_dependent_prefix (data : CfgData) (cat key : String)
    (spec : FieldSpec) (s : Str)
    (hschema : schemaField cat key = some spec)
    (hsens : spec.sensitive = true)
    (hval : (alGet2 data cat key).getD spec.dflt = PyVal.vstr s)
    (hlen : s.length > 4) :
    alGet2 (maskSensitive data) cat key =
      some (PyVal.vstr (List.replicate (s.length - 4) '*' ++ s.drop (s.length - 4))) := by
  rw [alGet2_maskSensitive _ _ _ _ hschema]
  unfold maskedFieldVal
  rw [hval]
  simp [hsens, hlen]

/-- C3 amended-claim witness at the stored value `"sk-abcdefghij"`. -/
theorem C3_mask_length_dependent_prefix_witness :
    alGet2 (maskSensitive c3data) "dify" "api_key" =
      some (PyVal.vstr (List.replicate ((s2l "sk-abcdefghij").length - 4) '*' ++
        (s2l "sk-abcdefghij").drop ((s2l "sk-abcdefghij").length - 4))) :=
  C3_mask_length_dependent_prefix c3data "dify" "api_key"
    { ftype := FType.tstr, dflt := PyVal.vstr (s2l ""), sensitive := true }
    (s2l "sk-abcdefghij") (by decide) (by decide) (by decide) (by decide)

end ZMD.Config

namespace ZMD.Mineru

/-!
Embedding of `src/mineru_client.py`: API-token validation
(`_validate_api_token`), the pre-signed PUT retry loop (`_upload_file`),
and the batch polling completion rule (`poll_batch`).  Wall-clock time,
sleeping and the overall poll timeout are abstracted away: the poll is
modelled over the (finite) script of responses the service returns while
the caller is still polling.
-/

open ZMD

/-- The masked-token regex `^\*+[^\*]{4}$` (full match): one or more `*`
followed by exactly four non-`*` characters.  Backtracking cannot move a
`*` into the tail class, so the greedy star prefix is exact. -/
def maskedTokenShape (t : Str) : Bool :=
  let stars := t.takeWhile (fun c => c = '*')
  let rest := t.dropWhile (fun c => c = '*')
  decide (stars.length ≥ 1) && decide (rest.length = 4) && rest.all (fun c => c ≠ '*')

/-- `_validate_api_token`: strip, reject empty and masked-shaped tokens,
return the stripped token otherwise. -/
def validateApiToken (apiToken : Str) : Except Str Str :=
  let token := pyStrip apiToken
  if token = [] then
    Except.error (s2l "MinerU API token is empty. Please set mineru.api_token first.")
  else if maskedTokenShape token then
    Except.error (s2l "MinerU API token looks masked (e.g. ****abcd). Please re-enter the real token in Config or import it from .env.")
  else Except.ok token

/-- Outcome of one PUT attempt as seen by `_upload_file`: a transport
exception (`requests.ConnectionError` / `requests.Timeout`) or an HTTP
status code. -/
inductive PutOutcome where
  | connErr
  | timeout
  | status (code : Nat)
  deriving DecidableEq, Repr

/-- Result of `_upload_file`: success (with the backoff waits slept, in
order), an immediately-fatal HTTP status, or failure after the final
attempt. -/
inductive UploadResult where
  | ok (waits : List Nat)
  | httpFatal (code : Nat)
  | exhausted
  deriving DecidableEq, Repr

/-- `backoff_times = [2, 8, 32]`. -/
def backoffTimes : List Nat := [2, 8, 32]

/-- Is this PUT outcome retried by `_upload_file`?  Connection errors,
timeouts, HTTP 429 and HTTP 5xx are; everything else is not. -/
def retryablePut (oc : PutOutcome) : Bool :=
  match oc with
  | PutOutcome.connErr => true
  | PutOutcome.timeout => true
  | PutOutcome.status c => decide (c ≠ 200) && (decide (c = 429) || decide (c ≥ 500))

/-- The attempt loop of `_upload_file`.  `oc n` is the outcome of the
`(n+1)`-th PUT; `remaining` counts the attempts the `for` loop still has
(so `remaining > 1` is the source's `attempt < max_retries`).  The second
component is the number of attempts made. -/
def uploadFileGo (oc : Nat → PutOutcome) : (attempt remaining : Nat) → List Nat →
    UploadResult × Nat
  | attempt, 0, _ => (UploadResult.exhausted, attempt - 1)
  | attempt, r + 1, waits =>
    match oc (attempt - 1) with
    | PutOutcome.status c =>
      if c = 200 then (UploadResult.ok waits, attempt)
      else if c = 429 ∨ c ≥ 500 then
        if r > 0 then
          uploadFileGo oc (attempt + 1) r (waits ++ [backoffTimes.getD (attempt - 1) 0])
        else (UploadResult.exhausted, attempt)
      else (UploadResult.httpFatal c, attempt)
    | _ =>
      if r > 0 then
        uploadFileGo oc (attempt + 1) r (waits ++ [backoffTimes.getD (attempt - 1) 0])
      else (UploadResult.exhausted, attempt)

/-- `_upload_file(url, path)` with the default `max_retries = 3`. -/
def uploadFile (oc : Nat → PutOutcome) : UploadResult × Nat :=
  uploadFileGo oc 1 3 []

/-- One poll result entry (`{data_id, state, ...}`; the fields the
completion rule does not read are dropped). -/
structure ExtractResult where
  dataId : String
  state : String
  deriving DecidableEq, Repr

/-- `state in {"done", "failed"}`. -/
def isTerminalState (s : String) : Bool := s = "done" || s = "failed"

/-- Number of results in a terminal state. -/
def terminalCount (results : List ExtractResult) : Nat :=
  (results.filter (fun r => isTerminalState r.state)).length

/-- Has `data_id = k` reached a terminal state in this response? -/
def keyTerminal (results : List ExtractResult) (k : String) : Bool :=
  results.any (fun r => isTerminalState r.state && r.dataId = k)

/-- The return decision `poll_batch` takes on one (non-empty) response:
expected-keys subset check, else expected-count check, then the
unconditional all-terminal check. -/
def pollReturnNow (results : List ExtractResult) (expectedCount : Option Nat)
    (expectedKeysSet : Option (List String)) : Bool :=
  let allTerm := results.all (fun r => isTerminalState r.state)
  match expectedKeysSet with
  | some keys => keys.all (keyTerminal results) || allTerm
  | Option.none =>
    match expectedCount with
    | some n => decide (terminalCount results ≥ n) || allTerm
    | Option.none => allTerm

/-- The `while True` polling loop of `poll_batch` over the script of
responses received before the timeout: an empty `extract_result` list
just sleeps and continues; otherwise the response is returned when the
completion rule fires.  `none` means the loop was still polling when the
script ran out (in the source: it keeps sleeping until the timeout
error). -/
def pollBatchRun (expectedCount : Option Nat) (expectedKeysSet : Option (List String)) :
    List (List ExtractResult) → Option (List ExtractResult)
  | [] => Option.none
  | r :: rest =>
    if r = [] then pollBatchRun expectedCount expectedKeysSet rest
    else if pollReturnNow r expectedCount expectedKeysSet then some r
    else pollBatchRun expectedCount expectedKeysSet rest

/-- `poll_batch(cfg, batch_id, expected_count, expected_keys)`: validate
the token before any request; `expected_keys_set = set(expected_keys) if
expected_keys else None` (an empty list behaves like `None`). -/
def pollBatch (apiToken : Str) (expectedCount : Option Nat)
    (expectedKeys : Option (List String)) (responses : List (List ExtractResult)) :
    Except Str (Option (List ExtractResult)) :=
  match validateApiToken apiToken with
  | Except.error e => Except.error e
  | Except.ok _ =>
    let keysSet := match expectedKeys with
      | some (k :: ks) => some (k :: ks)
      | _ => Option.none
    Except.ok (pollBatchRun expectedCount keysSet responses)

/-- `MINERU_BATCH_SIZE = 200`. -/
def MINERU_BATCH_SIZE : Nat := 200

/-- The entry of `upload_batch(cfg, file_items)` up to its first network
call: token validation, then the batch-size guard.  Everything after
(local size validation, URL request, PUTs) is abstracted as the
continuation `rest`, which the function only reaches when validation
passed. -/
def uploadBatchEntry {α : Type} (apiToken : Str) (fileItems : List (Str × String))
    (rest : Str → List (Str × String) → α) : Except Str α :=
  match validateApiToken apiToken with
  | Except.error e => Except.error e
  | Except.ok tok =>
    if fileItems.length > MINERU_BATCH_SIZE then
      Except.error (s2l "Batch size exceeds limit")
    else Except.ok (rest tok fileItems)

end ZMD.Mineru

namespace ZMD.Mineru

theorem uploadFileGo_zero (oc : Nat → PutOutcome) (a : Nat) (w : List Nat) :
    uploadFileGo oc a 0 w = (UploadResult.exhausted, a - 1) := rfl

theorem uploadFileGo_succ (oc : Nat → PutOutcome) (a r : Nat) (w : List Nat) :
    uploadFileGo oc a (r + 1) w =
      (match oc (a - 1) with
        | PutOutcome.status c =>
          if c = 200 then (UploadResult.ok w, a)
          else if c = 429 ∨ c ≥ 500 then
            if r > 0 then uploadFileGo oc (a + 1) r (w ++ [backoffTimes.getD (a - 1) 0])
            else (UploadResult.exhausted, a)
          else (UploadResult.httpFatal c, a)
        | _ =>
          if r > 0 then uploadFileGo oc (a + 1) r (w ++ [backoffTimes.getD (a - 1) 0])
          else (UploadResult.exhausted, a)) := rfl

theorem uploadFileGo_attempts (oc : Nat → PutOutcome) :
    ∀ r a w, (uploadFileGo oc a r w).2 ≤ a + r - 1 := by
  intro r
  induction r with
  | zero => intro a w; simp [uploadFileGo_zero]
  | succ r ih =>
    intro a w
    rw [uploadFileGo_succ]
    cases hoc : oc (a - 1) with
    | status c =>
      simp only
      split_ifs with h1 h2 h3
      · simp
      · calc (uploadFileGo oc (a + 1) r (w ++ [backoffTimes.getD (a - 1) 0])).2
            ≤ (a + 1) + r - 1 := ih _ _
          _ ≤ a + (r + 1) - 1 := by omega
      · simp
      · simp
    | connErr =>
      simp only
      split_ifs with h1
      · calc (uploadFileGo oc (a + 1) r (w ++ [backoffTimes.getD (a - 1) 0])).2
            ≤ (a + 1) + r - 1 := ih _ _
          _ ≤ a + (r + 1) - 1 := by omega
      · simp
    | timeout =>
      simp only
      split_ifs with h1
      · calc (uploadFileGo oc (a + 1) r (w ++ [backoffTimes.getD (a - 1) 0])).2
            ≤ (a + 1) + r - 1 := ih _ _
          _ ≤ a + (r + 1) - 1 := by omega
      · simp

theorem uploadFileGo_retry_step (oc : Nat → PutOutcome) (a r : Nat) (w : List Nat)
    (hr : r > 0) (h : retryablePut (oc (a - 1)) = true) :
    uploadFileGo oc a (r + 1) w =
      uploadFileGo oc (a + 1) r (w ++ [backoffTimes.getD (a - 1) 0]) := by
  rw [uploadFileGo_succ]
  cases hoc : oc (a - 1) with
  | status c =>
    rw [hoc] at h
    simp only [retryablePut, Bool.and_eq_true, Bool.or_eq_true, decide_eq_true_eq] at h
    obtain ⟨h200, hre⟩ := h
    simp [h200, hre, hr]
  | connErr => simp [hr]
  | timeout => simp [hr]

/-- C7 (confirmed): per-file pre-signed PUT uploads make at most three
attempts; the configured backoffs are 2, 8, 32 seconds; a retryable
failure (connection error, timeout, HTTP 429 or 5xx) triggers the next
attempt after the 2 s (then 8 s) wait, while any other non-200 HTTP
status below 500 aborts on the spot; two HTTP 503 responses followed by
HTTP 200 succeed after exactly two retries with waits 2 s and 8 s. -/
theorem C7_put_retry_policy :
    backoffTimes = [2, 8, 32] ∧
    (∀ oc : Nat → PutOutcome, (uploadFile oc).2 ≤ 3) ∧
    (∀ (oc : Nat → PutOutcome) (c : Nat), oc 0 = PutOutcome.status c → c ≠ 200 → c ≠ 429 →
      c < 500 → uploadFile oc = (UploadResult.httpFatal c, 1)) ∧
    (∀ oc : Nat → PutOutcome, retryablePut (oc 0) = true →
      uploadFile oc = uploadFileGo oc 2 2 [2]) ∧
    (∀ oc : Nat → PutOutcome, retryablePut (oc 0) = true → retryablePut (oc 1) = true →
      uploadFile oc = uploadFileGo oc 3 1 [2, 8]) ∧
    uploadFile (fun n => if n ≤ 1 then PutOutcome.status 503 else PutOutcome.status 200) =
      (UploadResult.ok [2, 8], 3) := by
  refine ⟨rfl, ?_, ?_, ?_, ?_, by decide⟩
  · intro oc
    have := uploadFileGo_attempts oc 3 1 []
    simpa [uploadFile] using this
  · intro oc c hoc h200 h429 h500
    have hre : ¬(c = 429 ∨ c ≥ 500) := by omega
    unfold uploadFile uploadFileGo
    simp [hoc, h200, hre]
  · intro oc h
    have := uploadFileGo_retry_step oc 1 2 [] (by omega) (by simpa using h)
    simpa [uploadFile] using this
  · intro oc h0 h1
    have e1 : uploadFile oc = uploadFileGo oc 2 2 [2] := by
      have := uploadFileGo_retry_step oc 1 2 [] (by omega) (by simpa using h0)
      simpa [uploadFile, backoffTimes] using this
    rw [e1]
    have := uploadFileGo_retry_step oc 2 1 [2] (by omega) (by simpa using h1)
    simpa [backoffTimes] using this

/-- C7 witness: the first conjuncts applied at the 503/503/200 outcome
script. -/
theorem C7_put_retry_policy_witness :
    (uploadFile (fun n => if n ≤ 1 then PutOutcome.status 503 else PutOutcome.status 200)).2 ≤ 3 ∧
    uploadFile (fun _ => PutOutcome.status 404) = (UploadResult.httpFatal 404, 1) :=
  ⟨C7_put_retry_policy.2.1 _,
    C7_put_retry_policy.2.2.1 (fun _ => PutOutcome.status 404) 404 rfl
      (by decide) (by decide) (by decide)⟩

end ZMD.Mineru

namespace ZMD.Mineru

/-- C6 counterexample: with explicit expected keys `{"a", "b"}`, a response
whose only result (`data_id = "a"`) is terminal makes the poll return even
though `"b"` has not reached a terminal state — the claim's "and not
before" is violated by the unconditional all-terminal fallback. -/
theorem C6_poll_priority_counterexample :
    pollBatch (s2l "token123") Option.none (some ["a", "b"])
        [[{ dataId := "a", state := "done" }]] =
      Except.ok (some [{ dataId := "a", state := "done" }]) ∧
    keyTerminal [{ dataId := "a", state := "done" }] "b" = false := by
  constructor
  · rfl
  · decide

/-- C6 (amended): completion rule of `poll_batch` per response.  With a
non-empty expected-key set, a non-empty response completes the poll iff
all expected ids are terminal in it or every result is terminal (so the
poll can return before all expected ids are terminal); with an expected
count, iff at least that many results are terminal or all are terminal;
with neither, iff every result is terminal.  Empty responses never
complete the poll, and the loop returns the first completing response. -/
theorem C6_poll_completion_rule :
    (∀ (results : List ExtractResult) (cnt : Option Nat) (keys : List String),
      pollReturnNow results cnt (some keys) = true ↔
        ((∀ k ∈ keys, keyTerminal results k = true) ∨
          ∀ r ∈ results, isTerminalState r.state = true)) ∧
    (∀ (results : List ExtractResult) (n : Nat),
      pollReturnNow results (some n) Option.none = true ↔
        (terminalCount results ≥ n ∨ ∀ r ∈ results, isTerminalState r.state = true)) ∧
    (∀ results : List ExtractResult,
      pollReturnNow results Option.none Option.none = true ↔
        ∀ r ∈ results, isTerminalState r.state = true) ∧
    (∀ (cnt : Option Nat) (ks : Option (List String)) rest,
      pollBatchRun cnt ks ([] :: rest) = pollBatchRun cnt ks rest) ∧
    (∀ (cnt : Option Nat) (ks : Option (List String)) (r : List ExtractResult) rest,
      r ≠ [] → pollReturnNow r cnt ks = true → pollBatchRun cnt ks (r :: rest) = some r) ∧
    (∀ (cnt : Option Nat) (ks : Option (List String)) (r : List ExtractResult) rest,
      r ≠ [] → pollReturnNow r cnt ks = false →
        pollBatchRun cnt ks (r :: rest) = pollBatchRun cnt ks rest) := by
  refine ⟨?_, ?_, ?_, ?_, ?_, ?_⟩
  · intro results cnt keys
    simp [pollReturnNow, List.all_eq_true]
  · intro results n
    simp [pollReturnNow, List.all_eq_true]
  · intro results
    simp [pollReturnNow, List.all_eq_true]
  · intro cnt ks rest
    simp [pollBatchRun]
  · intro cnt ks r rest hne hnow
    simp [pollBatchRun, hne, hnow]
  · intro cnt ks r rest hne hnow
    simp [pollBatchRun, hne, hnow]

/-- C6 amended-claim witness: the completion rule applied to concrete
responses (the counterexample response completes in keys mode; a pending
result does not complete in all-terminal mode). -/
theorem C6_poll_completion_rule_witness :
    pollBatchRun Option.none (some ["a", "b"])
        [[{ dataId := "a", state := "done" }]] = some [{ dataId := "a", state := "done" }] ∧
    pollBatchRun Option.none Option.none [[{ dataId := "a", state := "pending" }]] =
      Option.none :=
  ⟨C6_poll_completion_rule.2.2.2.2.1 Option.none (some ["a", "b"])
      [{ dataId := "a", state := "done" }] [] (by decide) (by decide),
    by
      rw [C6_poll_completion_rule.2.2.2.2.2 Option.none Option.none
        [{ dataId := "a", state := "pending" }] [] (by decide) (by decide)]
      rfl⟩

/-- The masked-token shape, written out as the spec describes it: one or
more `*` followed by exactly four non-`*` characters. -/
def maskedShapeSpec (s : Str) : Prop :=
  ∃ (k : Nat) (t4 : Str), 1 ≤ k ∧ s = List.replicate k '*' ++ t4 ∧ t4.length = 4 ∧
    ∀ c ∈ t4, c ≠ '*'

theorem takeWhile_star_append (k : Nat) (t4 : Str) (h : ∀ c ∈ t4, c ≠ '*') :
    (List.replicate k '*' ++ t4).takeWhile (fun c => decide (c = '*')) = List.replicate k '*' ∧
    (List.replicate k '*' ++ t4).dropWhile (fun c => decide (c = '*')) = t4 := by
  induction k with
  | zero =>
    simp only [List.replicate, List.nil_append]
    cases t4 with
    | nil => simp
    | cons c rest =>
      have hc : c ≠ '*' := h c (List.mem_cons_self _ _)
      simp [List.takeWhile, List.dropWhile, hc]
  | succ k ih =>
    simp only [List.replicate, List.cons_append]
    constructor
    · simp [List.takeWhile, (ih).1]
    · simp [List.dropWhile, (ih).2]

theorem maskedTokenShape_iff (s : Str) : maskedTokenShape s = true ↔ maskedShapeSpec s := by
  constructor
  · intro h
    simp only [maskedTokenShape, Bool.and_eq_true, decide_eq_true_eq, List.all_eq_true] at h
    obtain ⟨⟨hk, hlen⟩, hall⟩ := h
    refine ⟨(s.takeWhile (fun c => decide (c = '*'))).length,
      s.dropWhile (fun c => decide (c = '*')), hk, ?_, hlen, ?_⟩
    · have hsplit : s.takeWhile (fun c => decide (c = '*')) ++
          s.dropWhile (fun c => decide (c = '*')) = s :=
        List.takeWhile_append_dropWhile _ _
      have hrep : s.takeWhile (fun c => decide (c = '*')) =
          List.replicate (s.takeWhile (fun c => decide (c = '*'))).length '*' := by
        apply List.eq_replicate_of_mem
        intro b hb
        have := List.mem_takeWhile_imp hb
        simpa using this
      calc s = s.takeWhile (fun c => decide (c = '*')) ++
            s.dropWhile (fun c => decide (c = '*')) := hsplit.symm
        _ = _ := by rw [← hrep]
    · intro c hc
      have := hall c hc
      simpa using this
  · rintro ⟨k, t4, hk, rfl, hlen, hall⟩
    obtain ⟨htake, hdrop⟩ := takeWhile_star_append k t4 hall
    simp only [maskedTokenShape, Bool.and_eq_true, decide_eq_true_eq, List.all_eq_true]
    rw [htake, hdrop]
    refine ⟨⟨by simpa using hk, hlen⟩, ?_⟩
    intro c hc
    simpa using hall c hc

/-- C10 (confirmed): both authenticated OCR-client operations validate the
configured token first: a token that is empty after stripping, or that
has the masked shape (one or more `*` then exactly four non-`*`
characters), makes `upload_batch` and `poll_batch` fail with the
validation error independently of anything the network would return; any
other token passes validation, stripped of surrounding whitespace. -/
theorem C10_token_validation :
    (∀ t : Str, (∃ e, validateApiToken t = Except.error e) ↔
      (pyStrip t = [] ∨ maskedShapeSpec (pyStrip t))) ∧
    (∀ t : Str, pyStrip t ≠ [] → ¬maskedShapeSpec (pyStrip t) →
      validateApiToken t = Except.ok (pyStrip t)) ∧
    (∀ t : Str, (pyStrip t = [] ∨ maskedShapeSpec (pyStrip t)) →
      ∃ e, ∀ (cnt : Option Nat) (keys : Option (List String))
        (responses : List (List ExtractResult)),
        pollBatch t cnt keys responses = Except.error e) ∧
    (∀ t : Str, (pyStrip t = [] ∨ maskedShapeSpec (pyStrip t)) →
      ∃ e, ∀ (items : List (Str × String)) (rest : Str → List (Str × String) → Nat),
        uploadBatchEntry t items rest = Except.error e) := by
  have herr : ∀ t : Str, (pyStrip t = [] ∨ maskedShapeSpec (pyStrip t)) →
      ∃ e, validateApiToken t = Except.error e := by
    intro t h
    by_cases h0 : pyStrip t = []
    · exact ⟨s2l "MinerU API token is empty. Please set mineru.api_token first.",
        by unfold validateApiToken; simp [h0]⟩
    · have hm : maskedShapeSpec (pyStrip t) := h.resolve_left h0
      have hmb : maskedTokenShape (pyStrip t) = true := (maskedTokenShape_iff _).2 hm
      exact ⟨s2l "MinerU API token looks masked (e.g. ****abcd). Please re-enter the real token in Config or import it from .env.",
        by unfold validateApiToken; simp [h0, hmb]⟩
  refine ⟨?_, ?_, ?_, ?_⟩
  · intro t
    constructor
    · rintro ⟨e, he⟩
      by_cases h0 : pyStrip t = []
      · exact Or.inl h0
      · by_cases hm : maskedTokenShape (pyStrip t) = true
        · exact Or.inr ((maskedTokenShape_iff _).1 hm)
        · unfold validateApiToken at he
          simp [h0, hm] at he
    · exact herr t
  · intro t h0 hm
    have hmb : maskedTokenShape (pyStrip t) = false := by
      cases hb : maskedTokenShape (pyStrip t)
      · rfl
      · exact absurd ((maskedTokenShape_iff _).1 hb) hm
    unfold validateApiToken
    simp [h0, hmb]
  · intro t h
    obtain ⟨e, he⟩ := herr t h
    refine ⟨e, ?_⟩
    intro cnt keys responses
    unfold pollBatch
    rw [he]
  · intro t h
    obtain ⟨e, he⟩ := herr t h
    refine ⟨e, ?_⟩
    intro items rest
    unfold uploadBatchEntry
    rw [he]

/-- C10 witness: the masked token `"****abcd"` is rejected before any
request; the plain token `" tok123 "` passes validation stripped. -/
theorem C10_token_validation_witness :
    (∃ e, ∀ (cnt : Option Nat) (keys : Option (List String))
      (responses : List (List ExtractResult)),
      pollBatch (s2l "****abcd") cnt keys responses = Except.error e) ∧
    validateApiToken (s2l " tok123 ") = Except.ok (pyStrip (s2l " tok123 ")) :=
  ⟨C10_token_validation.2.2.1 (s2l "****abcd")
      (Or.inr ⟨4, s2l "abcd", by decide, by decide, by decide, by decide⟩),
    C10_token_validation.2.1 (s2l " tok123 ") (by decide)
      (fun hm => by
        obtain ⟨k, t4, hk, heq, hlen, hall⟩ := hm
        have : pyStrip (s2l " tok123 ") = s2l "tok123" := by decide
        rw [this] at heq
        have hhead : (s2l "tok123").head? = (List.replicate k '*' ++ t4).head? := by rw [heq]
        cases k with
        | zero => omega
        | succ k2 => simp [List.replicate, s2l] at hhead)⟩

end ZMD.Mineru

namespace ZMD.Pipeline

/-!
Embedding of the task data model (`src/models/task_models.py`), the
skip-file operation (`src/services/task_manager.py`), per-file status
updates and the post-upload parent aggregation
(`src/services/pipeline_runner.py`), and the submit/index outcome
structure of `upload_all` (`src/dify_client.py`).  Wall-clock fields,
event logs and locks are outside the claims and omitted.
-/

open ZMD

inductive TaskStatus where
  | queued | running | succeeded | failed | cancelled | partialSucceeded
  deriving DecidableEq, Repr

inductive Stage where
  | init | zoteroCollect | mineruUpload | mineruPoll | mdClean | smartSplit
  | difyUpload | difyIndex | finalize
  deriving DecidableEq, Repr

inductive FileStatus where
  | pending | processing | succeeded | failed | skipped
  deriving DecidableEq, Repr

/-- `FileState` (the float progress field is irrelevant here and dropped). -/
structure FileState where
  filename : String
  status : FileStatus := FileStatus.pending
  stage : Stage := Stage.init
  error : String := ""
  deriving DecidableEq, Repr

/-- The slice of a `Task` that `skip_file` reads and writes. -/
structure TaskFiles where
  status : TaskStatus
  files : List FileState
  deriving DecidableEq, Repr

/-- Update the first file state with the given filename (the `for fs in
task.files: if fs.filename == filename: ...; break` pattern). -/
def updateFirstFile (files : List FileState) (filename : String)
    (f : FileState → FileState) : List FileState :=
  match files with
  | [] => []
  | fs :: rest =>
    if fs.filename = filename then f fs :: rest
    else fs :: updateFirstFile rest filename f

/-- `TaskManager.skip_file(task_id, filename)` on the task's file list:
only running/queued tasks, only existing files, only files not yet in a
terminal state; the file is marked skipped with the fixed error text.
Returns the updated task and the `ok` flag of the reply (the skip set and
the event are not consulted by anything modelled here). -/
def skipFile (task : TaskFiles) (filename : String) : TaskFiles × Bool :=
  if task.status ≠ TaskStatus.running ∧ task.status ≠ TaskStatus.queued then (task, false)
  else
    match task.files.find? (fun fs => fs.filename = filename) with
    | Option.none => (task, false)
    | some target =>
      if target.status = FileStatus.succeeded ∨ target.status = FileStatus.failed ∨
          target.status = FileStatus.skipped then (task, false)
      else
        let files2 := updateFirstFile task.files filename
          (fun fs => { fs with status := FileStatus.skipped, error := "用户手动跳过" })
        ({ task with files := files2 }, true)

/-- `os.path.basename` for POSIX paths. -/
def pathBase (p : String) : String :=
  ((p.toList.reverse.takeWhile (fun c => c ≠ '/')).reverse).asString

/-- `_update_file_status(task, key, file_map, status, stage, error)` from
`src/services/pipeline_runner.py`: resolve the filename of the first
`file_map` entry whose task key matches, then overwrite the matching
`FileState`'s status, stage and error unconditionally. -/
def updateFileStatus (files : List FileState) (key : String)
    (fileMap : List (String × String)) (status : FileStatus) (stage : Stage)
    (error : String := "") : List FileState :=
  match fileMap.find? (fun p => p.2 = key) with
  | Option.none => files
  | some entry =>
    updateFirstFile files (pathBase entry.1)
      (fun fs => { fs with status := status, stage := stage, error := error })

/-- The per-document fields of an `md_results` entry that parent
resolution reads; `parentTaskKey = ""` models an absent or falsy
`parent_task_key`, exactly what `str(data.get("parent_task_key") or "")`
produces. -/
structure DocData where
  parentTaskKey : String := ""
  deriving DecidableEq, Repr

/-- `base.split("#", 1)[0]`. -/
def beforeHash (s : String) : String :=
  (s.toList.takeWhile (fun c => c ≠ '#')).asString

/-- `_resolve_parent_task_key(md_results, item_key)`. -/
def resolveParentTaskKey (mdResults : List (String × DocData)) (itemKey : String) : String :=
  let parent := match alGet mdResults itemKey with
    | some d => d.parentTaskKey
    | Option.none => ""
  let base := if parent ≠ "" then parent else itemKey
  beforeHash base

/-- The counting loop of `_build_parent_part_totals`. -/
def partTotalsGo (mdResults : List (String × DocData)) :
    List (String × Nat) → List String → List (String × Nat)
  | totals, [] => totals
  | totals, k :: ks =>
    let p := resolveParentTaskKey mdResults k
    partTotalsGo mdResults
      (if p ≠ "" then alSet totals p ((alGet totals p).getD 0 + 1) else totals) ks

/-- `_build_parent_part_totals(md_results)` (a `defaultdict(int)` counting
the documents grouped by resolved parent key). -/
def buildParentPartTotals (mdResults : List (String × DocData)) : List (String × Nat) :=
  partTotalsGo mdResults [] (mdResults.map Prod.fst)

/-- Python `set.add` on a list kept duplicate-free in insertion order. -/
def insertSet (l : List String) (x : String) : List String :=
  if x ∈ l then l else l ++ [x]

/-- `uploaded_parts[parent].add(key)`. -/
def addUploadedPart (parts : List (String × List String)) (parent key : String) :
    List (String × List String) :=
  alSet parts parent (insertSet ((alGet parts parent).getD []) key)

/-- The decision loop at the end of `_aggregate_parent_upload_outcomes`:
for each candidate parent not already failed, compare the number of
distinct uploaded children against the expected part total. -/
def classifyParents (totals : List (String × Nat)) (parts : List (String × List String)) :
    List String → List String × List String → List String × List String
  | [], acc => acc
  | parent :: rest, acc =>
    if parent ∈ acc.2 then classifyParents totals parts rest acc
    else
      let expected := (alGet totals parent).getD 1
      if ((alGet parts parent).getD []).length ≥ expected then
        classifyParents totals parts rest (insertSet acc.1 parent, acc.2)
      else classifyParents totals parts rest (acc.1, insertSet acc.2 parent)

/-- The loop of `_aggregate_parent_upload_outcomes` grouping uploaded
child keys by parent. -/
def uploadedPartsGo (mdResults : List (String × DocData)) :
    List (String × List String) → List String → List (String × List String)
  | acc, [] => acc
  | acc, k :: ks =>
    let parent := resolveParentTaskKey mdResults k
    uploadedPartsGo mdResults (if parent ≠ "" then addUploadedPart acc parent k else acc) ks

/-- The loop of `_aggregate_parent_upload_outcomes` collecting the parents
of failed child keys. -/
def failedParentsGo (mdResults : List (String × DocData)) :
    List String → List String → List String
  | acc, [] => acc
  | acc, k :: ks =>
    let parent := resolveParentTaskKey mdResults k
    failedParentsGo mdResults (if parent ≠ "" then insertSet acc parent else acc) ks

/-- `_aggregate_parent_upload_outcomes(uploaded_keys, failed_keys,
md_results, parent_part_totals)`.  Sets are modelled as duplicate-free
lists; membership in the returned succeeded/failed sets is
order-independent. -/
def aggregateParentUploadOutcomes (uploadedKeys failedKeys : List String)
    (mdResults : List (String × DocData)) (totals : List (String × Nat)) :
    List String × List String :=
  let uploadedParts := uploadedPartsGo mdResults [] uploadedKeys
  let failedParents := failedParentsGo mdResults [] failedKeys
  let candidates := ((totals.map Prod.fst) ++ (uploadedParts.map Prod.fst) ++
    failedParents).foldl insertSet []
  classifyParents totals uploadedParts candidates ([], failedParents)

/-- Outcome of one document in `upload_all` (`src/dify_client.py`):
`upload_document` returned no batch id (submit failed), or
`wait_for_indexing` succeeded / failed for its batch. -/
inductive DocOutcome where
  | submitFailed | indexOk | indexFailed
  deriving DecidableEq, Repr

/-- `upload_all(cfg, dataset_id, md_results, ...)` reduced to its
outcome structure: the first loop submits every document in order and
records submit failures; the second loop waits for indexing of each
accepted document, appending it to `uploaded` on success and to `failed`
otherwise.  Network traffic and progress callbacks are abstracted into
the per-key outcome function. -/
def uploadAll (mdResults : List (String × DocData)) (outcome : String → DocOutcome) :
    List String × List String :=
  let pending := (mdResults.filter (fun kv => outcome kv.1 ≠ DocOutcome.submitFailed)).map
    Prod.fst
  let failedSubmit := (mdResults.filter (fun kv => outcome kv.1 = DocOutcome.submitFailed)).map
    Prod.fst
  let uploaded := pending.filter (fun k => outcome k = DocOutcome.indexOk)
  let failedIndex := pending.filter (fun k => outcome k ≠ DocOutcome.indexOk)
  (uploaded, failedSubmit ++ failedIndex)

end ZMD.Pipeline

namespace ZMD.Pipeline

/-- C4 (code bug evidence): on a running task, `skip_file` marks a pending
file skipped, yet the upload-stage status update the runner performs for
that file's task key overwrites the skipped state with failed — the
runner never consults the skip set (`run_pipeline` does not even accept
the argument `start_task` passes), so a skipped file is counted as
failed. -/
private def c4task : TaskFiles :=
  { status := TaskStatus.running, files := [{ filename := "a.pdf" }] }

theorem C4_skipped_file_overwritten_by_upload_stage :
    (skipFile c4task "a.pdf").2 = true ∧
    ((skipFile c4task "a.pdf").1.files.map (fun fx => fx.status)) = [FileStatus.skipped] ∧
    ((updateFileStatus (skipFile c4task "a.pdf").1.files
        "K7#0" [("/tmp/a.pdf", "K7#0")] FileStatus.failed Stage.difyUpload
        "Dify submit failed").map (fun fx => fx.status)) = [FileStatus.failed] := by
  refine ⟨rfl, rfl, rfl⟩

theorem insertSet_mem (l : List String) (x y : String) :
    x ∈ insertSet l y ↔ x ∈ l ∨ x = y := by
  unfold insertSet
  by_cases h : y ∈ l
  · simp only [h, if_pos]
    constructor
    · exact Or.inl
    · rintro (hx | hx)
      · exact hx
      · exact hx ▸ h
  · simp [h]

theorem insertSet_nodup (l : List String) (y : String) (h : l.Nodup) :
    (insertSet l y).Nodup := by
  unfold insertSet
  by_cases hy : y ∈ l
  · simpa [hy]
  · simp [hy, List.nodup_append, h]

theorem foldl_insertSet_mem (ks : List String) :
    ∀ acc x, x ∈ ks.foldl insertSet acc ↔ x ∈ acc ∨ x ∈ ks := by
  induction ks with
  | nil => intro acc x; simp
  | cons k rest ih =>
    intro acc x
    simp only [List.foldl_cons]
    rw [ih]
    rw [insertSet_mem]
    constructor
    · rintro (⟨h | h⟩ | h)
      · exact Or.inl h
      · exact Or.inr (by simp [h])
      · exact Or.inr (List.mem_cons_of_mem _ h)
    · rintro (h | h)
      · exact Or.inl (Or.inl h)
      · rcases List.mem_cons.1 h with h | h
        · exact Or.inl (Or.inr h)
        · exact Or.inr h

theorem foldl_insertSet_nodup (ks : List String) :
    ∀ acc, acc.Nodup → (ks.foldl insertSet acc).Nodup := by
  induction ks with
  | nil => intro acc h; simpa
  | cons k rest ih =>
    intro acc h
    simp only [List.foldl_cons]
    exact ih _ (insertSet_nodup _ _ h)

end ZMD.Pipeline

namespace ZMD.Pipeline

theorem failedParentsGo_mem (md : List (String × DocData)) (p : String) :
    ∀ ks acc, p ∈ failedParentsGo md acc ks ↔
      p ∈ acc ∨ ∃ k ∈ ks, resolveParentTaskKey md k = p ∧ p ≠ "" := by
  intro ks
  induction ks with
  | nil => intro acc; simp [failedParentsGo]
  | cons k rest ih =>
    intro acc
    simp only [failedParentsGo]
    by_cases hp : resolveParentTaskKey md k ≠ ""
    · rw [if_pos hp, ih, insertSet_mem]
      constructor
      · rintro ((h | h) | h)
        · exact Or.inl h
        · exact Or.inr ⟨k, by simp, h.symm, by rw [h]; exact hp⟩
        · obtain ⟨k2, hk2, hpar, hne⟩ := h
          exact Or.inr ⟨k2, List.mem_cons_of_mem _ hk2, hpar, hne⟩
      · rintro (h | ⟨k2, hk2, hpar, hne⟩)
        · exact Or.inl (Or.inl h)
        · rcases List.mem_cons.1 hk2 with h2 | h2
          · subst h2
            exact Or.inl (Or.inr hpar.symm)
          · exact Or.inr ⟨k2, h2, hpar, hne⟩
    · rw [if_neg hp, ih]
      push_neg at hp
      constructor
      · rintro (h | ⟨k2, hk2, hpar, hne⟩)
        · exact Or.inl h
        · exact Or.inr ⟨k2, List.mem_cons_of_mem _ hk2, hpar, hne⟩
      · rintro (h | ⟨k2, hk2, hpar, hne⟩)
        · exact Or.inl h
        · rcases List.mem_cons.1 hk2 with h2 | h2
          · subst h2
            have hpe : p = "" := by rw [← hpar]; exact hp
            exact absurd hpe hne
          · exact Or.inr ⟨k2, h2, hpar, hne⟩

theorem failedParentsGo_nodup (md : List (String × DocData)) :
    ∀ ks acc, acc.Nodup → (failedParentsGo md acc ks).Nodup := by
  intro ks
  induction ks with
  | nil => intro acc h; simpa [failedParentsGo]
  | cons k rest ih =>
    intro acc h
    simp only [failedParentsGo]
    by_cases hp : resolveParentTaskKey md k ≠ ""
    · rw [if_pos hp]
      exact ih _ (insertSet_nodup _ _ h)
    · rw [if_neg hp]
      exact ih _ h

theorem addUploadedPart_get_ne (parts : List (String × List String)) (q p k : String)
    (h : q ≠ p) : alGet (addUploadedPart parts q k) p = alGet parts p := by
  unfold addUploadedPart
  exact alGet_alSet_ne _ _ _ _ h

theorem uploadedPartsGo_bucket (md : List (String × DocData)) (p : String) (hp : p ≠ "") :
    ∀ (ks : List String) (acc : List (String × List String)), ks.Nodup →
      (∀ k ∈ ks, k ∉ (alGet acc p).getD []) →
      (alGet (uploadedPartsGo md acc ks) p).getD [] =
        (alGet acc p).getD [] ++ ks.filter (fun k => resolveParentTaskKey md k = p) := by
  intro ks
  induction ks with
  | nil => intro acc hnd hfresh; simp [uploadedPartsGo]
  | cons k rest ih =>
    intro acc hnd hfresh
    simp only [uploadedPartsGo]
    have hndr : rest.Nodup := hnd.of_cons
    by_cases hpar : resolveParentTaskKey md k = p
    · have hne : resolveParentTaskKey md k ≠ "" := by rw [hpar]; exact hp
      rw [if_pos hne]
      have hkfresh : k ∉ (alGet acc p).getD [] := hfresh k (List.mem_cons_self _ _)
      have hbucket : (alGet (addUploadedPart acc (resolveParentTaskKey md k) k) p).getD [] =
          (alGet acc p).getD [] ++ [k] := by
        unfold addUploadedPart
        rw [hpar, alGet_alSet_self]
        simp [insertSet, hkfresh]
      rw [ih _ hndr ?fresh]
      case fresh =>
        intro k2 hk2
        rw [hbucket]
        simp only [List.mem_append, List.mem_singleton]
        rintro (h2 | h2)
        · exact hfresh k2 (List.mem_cons_of_mem _ hk2) h2
        · subst h2
          exact (List.nodup_cons.1 hnd).1 hk2
      rw [hbucket]
      simp [List.filter_cons, hpar]
    · have hunch : (alGet (if resolveParentTaskKey md k ≠ "" then
          addUploadedPart acc (resolveParentTaskKey md k) k else acc) p).getD [] =
          (alGet acc p).getD [] := by
        by_cases hne : resolveParentTaskKey md k ≠ ""
        · rw [if_pos hne, addUploadedPart_get_ne _ _ _ _ hpar]
        · rw [if_neg hne]
      rw [ih _ hndr ?fresh2]
      case fresh2 =>
        intro k2 hk2
        rw [hunch]
        exact hfresh k2 (List.mem_cons_of_mem _ hk2)
      rw [hunch]
      simp [List.filter_cons, hpar]

end ZMD.Pipeline

namespace ZMD.Pipeline

theorem classifyParents_not_mem (totals : List (String × Nat))
    (parts : List (String × List String)) (p : String) :
    ∀ (cands : List String) (acc : List String × List String), p ∉ cands →
      (p ∈ (classifyParents totals parts cands acc).1 ↔ p ∈ acc.1) ∧
      (p ∈ (classifyParents totals parts cands acc).2 ↔ p ∈ acc.2) := by
  intro cands
  induction cands with
  | nil => intro acc h; simp [classifyParents]
  | cons c rest ih =>
    intro acc h
    have hc : p ≠ c := fun he => h (he ▸ List.mem_cons_self _ _)
    have hrest : p ∉ rest := fun hr => h (List.mem_cons_of_mem _ hr)
    simp only [classifyParents]
    by_cases h2 : c ∈ acc.2
    · rw [if_pos h2]
      exact ih acc hrest
    · rw [if_neg h2]
      by_cases hlen : ((alGet parts c).getD []).length ≥ (alGet totals c).getD 1
      · rw [if_pos hlen]
        have := ih (insertSet acc.1 c, acc.2) hrest
        refine ⟨?_, by rw [this.2]⟩
        rw [this.1]
        simp only [insertSet_mem]
        constructor
        · rintro (hh | hh)
          · exact hh
          · exact absurd hh hc
        · exact Or.inl
      · rw [if_neg hlen]
        have := ih (acc.1, insertSet acc.2 c) hrest
        refine ⟨by rw [this.1], ?_⟩
        rw [this.2]
        simp only [insertSet_mem]
        constructor
        · rintro (hh | hh)
          · exact hh
          · exact absurd hh hc
        · exact Or.inl

theorem classifyParents_mem (totals : List (String × Nat))
    (parts : List (String × List String)) (p : String) :
    ∀ (cands : List String) (acc : List String × List String), cands.Nodup → p ∈ cands →
      p ∉ acc.1 →
      (p ∈ (classifyParents totals parts cands acc).1 ↔
        (p ∉ acc.2 ∧ ((alGet parts p).getD []).length ≥ (alGet totals p).getD 1)) ∧
      (p ∈ (classifyParents totals parts cands acc).2 ↔
        (p ∈ acc.2 ∨ ((alGet parts p).getD []).length < (alGet totals p).getD 1)) := by
  intro cands
  induction cands with
  | nil => intro acc hnd h; simp at h
  | cons c rest ih =>
    intro acc hnd h hp1
    have hndr : rest.Nodup := hnd.of_cons
    simp only [classifyParents]
    by_cases hc : c = p
    · subst hc
      have hrest : c ∉ rest := (List.nodup_cons.1 hnd).1
      by_cases h2 : c ∈ acc.2
      · rw [if_pos h2]
        have hnm := classifyParents_not_mem totals parts c rest acc hrest
        rw [hnm.1, hnm.2]
        constructor
        · constructor
          · intro hh
            exact absurd hh hp1
          · rintro ⟨hh, _⟩
            exact absurd h2 hh
        · constructor
          · intro _
            exact Or.inl h2
          · intro _
            exact h2
      · rw [if_neg h2]
        by_cases hlen : ((alGet parts c).getD []).length ≥ (alGet totals c).getD 1
        · rw [if_pos hlen]
          have hnm := classifyParents_not_mem totals parts c rest (insertSet acc.1 c, acc.2)
            hrest
          rw [hnm.1, hnm.2]
          simp only
          rw [insertSet_mem]
          constructor
          · constructor
            · intro _
              exact ⟨h2, hlen⟩
            · intro _
              exact Or.inr rfl
          · constructor
            · intro hh
              exact Or.inl hh
            · rintro (hh | hh)
              · exact hh
              · omega
        · rw [if_neg hlen]
          have hnm := classifyParents_not_mem totals parts c rest (acc.1, insertSet acc.2 c)
            hrest
          rw [hnm.1, hnm.2]
          simp only
          rw [insertSet_mem]
          constructor
          · constructor
            · intro hh
              exact absurd hh hp1
            · rintro ⟨_, hh⟩
              exact absurd hh hlen
          · constructor
            · intro _
              exact Or.inr (by omega)
            · intro _
              exact Or.inr rfl
    · have hrest : p ∈ rest := by
        rcases List.mem_cons.1 h with hh | hh
        · exact absurd hh.symm hc
        · exact hh
      by_cases h2 : c ∈ acc.2
      · rw [if_pos h2]
        exact ih acc hndr hrest hp1
      · rw [if_neg h2]
        by_cases hlen : ((alGet parts c).getD []).length ≥ (alGet totals c).getD 1
        · rw [if_pos hlen]
          have hp1b : p ∉ insertSet acc.1 c := by
            rw [insertSet_mem]
            rintro (hh | hh)
            · exact hp1 hh
            · exact hc hh.symm
          exact ih (insertSet acc.1 c, acc.2) hndr hrest hp1b
        · rw [if_neg hlen]
          have := ih (acc.1, insertSet acc.2 c) hndr hrest hp1
          rw [this.1, this.2]
          simp only
          rw [insertSet_mem]
          constructor
          · constructor
            · rintro ⟨hh, hlen2⟩
              exact ⟨fun hin => hh (Or.inl hin), hlen2⟩
            · rintro ⟨hh, hlen2⟩
              refine ⟨?_, hlen2⟩
              rintro (hin | hin)
              · exact hh hin
              · exact hc hin.symm
          · constructor
            · rintro (hh | hh)
              · rcases hh with hh | hh
                · exact Or.inl hh
                · exact absurd hh.symm hc
              · exact Or.inr hh
            · rintro (hh | hh)
              · exact Or.inl (Or.inl hh)
              · exact Or.inr hh

theorem partTotalsGo_empty_key (md : List (String × DocData)) :
    ∀ (ks : List String) (acc : List (String × Nat)), alGet acc "" = Option.none →
      alGet (partTotalsGo md acc ks) "" = Option.none := by
  intro ks
  induction ks with
  | nil => intro acc h; simpa [partTotalsGo]
  | cons k rest ih =>
    intro acc h
    simp only [partTotalsGo]
    by_cases hp : resolveParentTaskKey md k ≠ ""
    · rw [if_pos hp]
      exact ih _ (by rw [alGet_alSet_ne _ _ _ _ hp]; exact h)
    · rw [if_neg hp]
      exact ih _ h

theorem alGet_mem_fst {α : Type} (l : List (String × α)) (k : String) (v : α)
    (h : alGet l k = some v) : k ∈ l.map Prod.fst := by
  induction l with
  | nil => simp [alGet] at h
  | cons hd t ih =>
    obtain ⟨k2, v2⟩ := hd
    by_cases hk : k2 = k
    · simp [hk]
    · simp only [alGet, if_neg hk] at h
      simp [ih h]

theorem buildParentPartTotals_key_ne_empty (md : List (String × DocData)) (p : String)
    (N : Nat) (h : alGet (buildParentPartTotals md) p = some N) : p ≠ "" := by
  intro hpe
  subst hpe
  rw [buildParentPartTotals, partTotalsGo_empty_key md _ [] rfl] at h
  exact Option.noConfusion h

theorem filter_fst_map {α β : Type} (l : List (α × β)) (q : α → Bool) :
    (l.filter (fun kv => q kv.1)).map Prod.fst = (l.map Prod.fst).filter q := by
  induction l with
  | nil => rfl
  | cons kv rest ih =>
    by_cases h : q kv.1
    · simp [List.filter_cons, h, ih]
    · simp [List.filter_cons, h, ih]

theorem my_filter_filter {α : Type} (p q : α → Bool) (l : List α) :
    (l.filter p).filter q = l.filter (fun a => p a && q a) := by
  induction l with
  | nil => rfl
  | cons a rest ih =>
    by_cases hp : p a
    · by_cases hq : q a
      · simp [List.filter_cons, hp, hq, ih]
      · simp [List.filter_cons, hp, hq, ih]
    · simp [List.filter_cons, hp, ih]

theorem docOutcome_ok_iff (o : DocOutcome) :
    (o ≠ DocOutcome.submitFailed ∧ o ≠ DocOutcome.indexFailed) ↔ o = DocOutcome.indexOk := by
  cases o <;> simp

theorem uploadAll_uploaded (md : List (String × DocData)) (outcome : String → DocOutcome) :
    (uploadAll md outcome).1 =
      (md.map Prod.fst).filter (fun k => outcome k = DocOutcome.indexOk) := by
  unfold uploadAll
  simp only
  rw [filter_fst_map md (fun x => decide (outcome x ≠ DocOutcome.submitFailed)),
    my_filter_filter]
  apply List.filter_congr
  intro k _
  cases h : outcome k <;> simp [h]

theorem uploadAll_failed_mem (md : List (String × DocData)) (outcome : String → DocOutcome)
    (k : String) :
    k ∈ (uploadAll md outcome).2 ↔
      k ∈ md.map Prod.fst ∧ outcome k ≠ DocOutcome.indexOk := by
  unfold uploadAll
  simp only [List.mem_append]
  rw [filter_fst_map md (fun x => decide (outcome x = DocOutcome.submitFailed)),
    filter_fst_map md (fun x => decide (outcome x ≠ DocOutcome.submitFailed)),
    my_filter_filter]
  simp only [List.mem_filter]
  constructor
  · rintro (⟨hm, ho⟩ | ⟨hm, ho⟩)
    · refine ⟨hm, ?_⟩
      simp only [decide_eq_true_eq] at ho
      rw [ho]
      simp
    · refine ⟨hm, ?_⟩
      simp only [Bool.and_eq_true, decide_eq_true_eq] at ho
      cases h : outcome k
      · exact absurd h ho.1.elim
      · exact absurd h ho.2.elim
      · simp
  · rintro ⟨hm, ho⟩
    cases h : outcome k with
    | submitFailed => exact Or.inl ⟨hm, by simp [h]⟩
    | indexOk => exact absurd h ho
    | indexFailed => exact Or.inr ⟨hm, by simp [h]⟩

end ZMD.Pipeline

namespace ZMD.Pipeline

/-- C5 (confirmed): for a parent key with N children in `md_results`, the
post-upload aggregation reports the parent succeeded iff no child failed
(at submit or at indexing) and the number of children with an `index_ok`
outcome reached N; in every other case the parent lands in the failed
set.  Note the code resolves "parent" as everything before the first `#`
of the document key (or of its `parent_task_key`). -/
theorem C5_parent_outcome_aggregation (mdResults : List (String × DocData))
    (outcome : String → DocOutcome) (p : String) (N : Nat)
    (hnd : (mdResults.map Prod.fst).Nodup)
    (hN : alGet (buildParentPartTotals mdResults) p = some N) :
    (p ∈ (aggregateParentUploadOutcomes (uploadAll mdResults outcome).1
        (uploadAll mdResults outcome).2 mdResults (buildParentPartTotals mdResults)).1 ↔
      ((∀ kv ∈ mdResults, resolveParentTaskKey mdResults kv.1 = p →
          (outcome kv.1 ≠ DocOutcome.submitFailed ∧ outcome kv.1 ≠ DocOutcome.indexFailed)) ∧
        ((mdResults.map Prod.fst).filter (fun k =>
          decide (resolveParentTaskKey mdResults k = p ∧
            outcome k = DocOutcome.indexOk))).length ≥ N)) ∧
    (¬((∀ kv ∈ mdResults, resolveParentTaskKey mdResults kv.1 = p →
          (outcome kv.1 ≠ DocOutcome.submitFailed ∧ outcome kv.1 ≠ DocOutcome.indexFailed)) ∧
        ((mdResults.map Prod.fst).filter (fun k =>
          decide (resolveParentTaskKey mdResults k = p ∧
            outcome k = DocOutcome.indexOk))).length ≥ N) →
      p ∈ (aggregateParentUploadOutcomes (uploadAll mdResults outcome).1
        (uploadAll mdResults outcome).2 mdResults (buildParentPartTotals mdResults)).2) := by
  have hp : p ≠ "" := buildParentPartTotals_key_ne_empty _ _ _ hN
  have hU : (uploadAll mdResults outcome).1 =
      (mdResults.map Prod.fst).filter (fun k => decide (outcome k = DocOutcome.indexOk)) :=
    uploadAll_uploaded mdResults outcome
  have hUnd : (uploadAll mdResults outcome).1.Nodup := by
    rw [hU]
    exact hnd.filter _
  have hbucket : (alGet (uploadedPartsGo mdResults [] (uploadAll mdResults outcome).1) p).getD
      [] = (uploadAll mdResults outcome).1.filter
        (fun k => decide (resolveParentTaskKey mdResults k = p)) := by
    have := uploadedPartsGo_bucket mdResults p hp (uploadAll mdResults outcome).1 [] hUnd
      (by intro k hk; simp [alGet])
    simpa [alGet] using this
  have hlen : ((alGet (uploadedPartsGo mdResults [] (uploadAll mdResults outcome).1) p).getD
      []).length = ((mdResults.map Prod.fst).filter (fun k =>
        decide (resolveParentTaskKey mdResults k = p ∧
          outcome k = DocOutcome.indexOk))).length := by
    rw [hbucket, hU, my_filter_filter]
    congr 1
    apply List.filter_congr
    intro k _
    by_cases h1 : outcome k = DocOutcome.indexOk <;>
      by_cases h2 : resolveParentTaskKey mdResults k = p <;> simp [h1, h2]
  have hFP : p ∈ failedParentsGo mdResults [] (uploadAll mdResults outcome).2 ↔
      ∃ kv ∈ mdResults, resolveParentTaskKey mdResults kv.1 = p ∧
        outcome kv.1 ≠ DocOutcome.indexOk := by
    rw [failedParentsGo_mem]
    simp only [List.not_mem_nil, false_or]
    constructor
    · rintro ⟨k, hk, hpar, _⟩
      obtain ⟨hm, ho⟩ := (uploadAll_failed_mem mdResults outcome k).1 hk
      obtain ⟨kv, hkv, hfst⟩ := List.mem_map.1 hm
      exact ⟨kv, hkv, by rw [hfst]; exact hpar, by rw [hfst]; exact ho⟩
    · rintro ⟨kv, hkv, hpar, ho⟩
      refine ⟨kv.1, ?_, hpar, hp⟩
      exact (uploadAll_failed_mem mdResults outcome kv.1).2
        ⟨List.mem_map_of_mem _ hkv, ho⟩
  have hchild : (∀ kv ∈ mdResults, resolveParentTaskKey mdResults kv.1 = p →
      (outcome kv.1 ≠ DocOutcome.submitFailed ∧ outcome kv.1 ≠ DocOutcome.indexFailed)) ↔
      p ∉ failedParentsGo mdResults [] (uploadAll mdResults outcome).2 := by
    rw [hFP]
    constructor
    · rintro hA ⟨kv, hkv, hpar, hno⟩
      exact hno ((docOutcome_ok_iff _).1 (hA kv hkv hpar))
    · intro hNo kv hkv hpar
      refine (docOutcome_ok_iff _).2 ?_
      by_contra hne
      exact hNo ⟨kv, hkv, hpar, hne⟩
  have hcnd : ((((buildParentPartTotals mdResults).map Prod.fst) ++
      ((uploadedPartsGo mdResults [] (uploadAll mdResults outcome).1).map Prod.fst) ++
      failedParentsGo mdResults [] (uploadAll mdResults outcome).2).foldl insertSet
        []).Nodup :=
    foldl_insertSet_nodup _ [] (by simp)
  have hpin : p ∈ (((buildParentPartTotals mdResults).map Prod.fst) ++
      ((uploadedPartsGo mdResults [] (uploadAll mdResults outcome).1).map Prod.fst) ++
      failedParentsGo mdResults [] (uploadAll mdResults outcome).2).foldl insertSet [] := by
    rw [foldl_insertSet_mem]
    refine Or.inr ?_
    simp only [List.mem_append]
    exact Or.inl (Or.inl (alGet_mem_fst _ _ _ hN))
  have hcls := classifyParents_mem (buildParentPartTotals mdResults)
    (uploadedPartsGo mdResults [] (uploadAll mdResults outcome).1) p
    ((((buildParentPartTotals mdResults).map Prod.fst) ++
      ((uploadedPartsGo mdResults [] (uploadAll mdResults outcome).1).map Prod.fst) ++
      failedParentsGo mdResults [] (uploadAll mdResults outcome).2).foldl insertSet [])
    ([], failedParentsGo mdResults [] (uploadAll mdResults outcome).2) hcnd hpin (by simp)
  have hagg : aggregateParentUploadOutcomes (uploadAll mdResults outcome).1
      (uploadAll mdResults outcome).2 mdResults (buildParentPartTotals mdResults) =
      classifyParents (buildParentPartTotals mdResults)
        (uploadedPartsGo mdResults [] (uploadAll mdResults outcome).1)
        ((((buildParentPartTotals mdResults).map Prod.fst) ++
          ((uploadedPartsGo mdResults [] (uploadAll mdResults outcome).1).map Prod.fst) ++
          failedParentsGo mdResults [] (uploadAll mdResults outcome).2).foldl insertSet [])
        ([], failedParentsGo mdResults [] (uploadAll mdResults outcome).2) := rfl
  rw [hagg]
  have hexp : (alGet (buildParentPartTotals mdResults) p).getD 1 = N := by
    rw [hN]
    rfl
  constructor
  · rw [hcls.1]
    simp only
    rw [hexp, hlen, hchild]
  · intro hno
    rw [hcls.2]
    simp only
    rw [hexp, hlen]
    by_cases hf : p ∈ failedParentsGo mdResults [] (uploadAll mdResults outcome).2
    · exact Or.inl hf
    · refine Or.inr ?_
      rcases not_and_or.1 hno with hA | hB
      · exact absurd (hchild.2 hf) hA
      · omega

/-- C5 witness: a source file with two children, one of which fails at
indexing — the parent is not in the succeeded set and is in the failed
set. -/
theorem C5_parent_outcome_aggregation_witness :
    (("K1" ∈ (aggregateParentUploadOutcomes
        (uploadAll [("K1#0#part1", { parentTaskKey := "K1#0" }),
          ("K1#0#part2", { parentTaskKey := "K1#0" })]
          (fun k => if k = "K1#0#part1" then DocOutcome.indexOk else DocOutcome.indexFailed)).1
        (uploadAll [("K1#0#part1", { parentTaskKey := "K1#0" }),
          ("K1#0#part2", { parentTaskKey := "K1#0" })]
          (fun k => if k = "K1#0#part1" then DocOutcome.indexOk else DocOutcome.indexFailed)).2
        [("K1#0#part1", { parentTaskKey := "K1#0" }),
          ("K1#0#part2", { parentTaskKey := "K1#0" })]
        (buildParentPartTotals [("K1#0#part1", { parentTaskKey := "K1#0" }),
          ("K1#0#part2", { parentTaskKey := "K1#0" })])).1) ↔
      ((∀ kv ∈ [("K1#0#part1", ({ parentTaskKey := "K1#0" } : DocData)),
          ("K1#0#part2", { parentTaskKey := "K1#0" })],
          resolveParentTaskKey [("K1#0#part1", { parentTaskKey := "K1#0" }),
            ("K1#0#part2", { parentTaskKey := "K1#0" })] kv.1 = "K1" →
          ((if kv.1 = "K1#0#part1" then DocOutcome.indexOk else DocOutcome.indexFailed) ≠
              DocOutcome.submitFailed ∧
            (if kv.1 = "K1#0#part1" then DocOutcome.indexOk else DocOutcome.indexFailed) ≠
              DocOutcome.indexFailed)) ∧
        (([("K1#0#part1", ({ parentTaskKey := "K1#0" } : DocData)),
          ("K1#0#part2", { parentTaskKey := "K1#0" })].map Prod.fst).filter (fun k =>
          decide (resolveParentTaskKey [("K1#0#part1", { parentTaskKey := "K1#0" }),
              ("K1#0#part2", { parentTaskKey := "K1#0" })] k = "K1" ∧
            (if k = "K1#0#part1" then DocOutcome.indexOk else DocOutcome.indexFailed) =
              DocOutcome.indexOk))).length ≥ 2)) :=
  (C5_parent_outcome_aggregation
    [("K1#0#part1", { parentTaskKey := "K1#0" }), ("K1#0#part2", { parentTaskKey := "K1#0" })]
    (fun k => if k = "K1#0#part1" then DocOutcome.indexOk else DocOutcome.indexFailed)
    "K1" 2 (by decide) (by decide)).1

end ZMD.Pipeline

namespace ZMD.Splitter

/-!
Embedding of the upload-size partitioner of `src/splitter/pipeline.py`:
`_strip_existing_markers`, `_normalize_heading_levels` (with the
`_RE_MD_HEADING` and `_RE_NUMBER_HEADING` regex semantics written out),
`_line_start_offsets`, `_pick_doc_cut_line`, `_line_at_or_before_offset`,
`_split_text_into_upload_docs`, `_build_part_file_name` and
`split_documents_for_upload`.
-/

open ZMD

/-- `_strip_existing_markers(text, marker)`: drop the lines equal to the
stripped marker. -/
def stripExistingMarkers (text marker : Str) : Str :=
  joinChar '\n' ((splitOnChar '\n' text).filter (fun l => pyStrip l ≠ pyStrip marker))

/-- Match of `_RE_MD_HEADING = ^(#{1,6})\s*(.+?)\s*$` on an already
stripped line, returning the level (`len(group(1))`) and the title
(`group(2)`).  On a stripped line the regex matches iff the line starts
with `#` and has at least two characters; greedy `#{1,6}` keeps
`min(hashes, 6)` hashes except when the line is all hashes, where
backtracking gives one hash back so that the lazy `(.+?)` can match; the
title then runs from the first non-space character after the kept hashes
to the end of the line. -/
def matchMdHeading (s : Str) : Option (Nat × Str) :=
  if s.head? = some '#' ∧ s.length ≥ 2 then
    let hashes := (s.takeWhile (fun c => c = '#')).length
    let k := if hashes = s.length then s.length - 1 else min hashes 6
    some (k, (s.drop k).dropWhile isPyWs)
  else Option.none

/-- Character class `[\s\-_.:：)]` of `_RE_NUMBER_HEADING`. -/
def isNumTrailCh (c : Char) : Bool :=
  isPyWs c || c = '-' || c = '_' || c = '.' || c = ':' || c = '：' || c = ')'

/-- Length consumed by the greedy `(?:\.\d+)*` groups. -/
def dotDigitGroupsLen : Str → Nat
  | '.' :: rest =>
    let d := (rest.takeWhile isDigitCh).length
    if d > 0 then 1 + d + dotDigitGroupsLen (rest.drop d) else 0
  | _ => 0
termination_by s => s.length
decreasing_by
  simp only [List.length_drop, List.length_cons]
  omega

/-- `_strip_heading_numbering(title)` with the semantics of
`^\s*(?:\d+(?:\.\d+)*)[\s\-_.:：)]*\s*(.+)$` on the stripped title: the
leading `\s*` is empty (the probe is stripped), `a` characters of numeric
prefix and `b` characters of trailing punctuation class are consumed
greedily; when they consume the whole probe, backtracking frees exactly
the last character for the mandatory `(.+)` (possible whenever the probe
has at least two characters), else the regex fails and the probe is kept.
The trailing `\s*` before `(.+)` always matches empty because the
character after a maximal class run is not whitespace. -/
def stripHeadingNumbering (title : Str) : Str :=
  let probe := pyStrip title
  if probe = [] then []
  else if ¬(probe.head?.map isDigitCh).getD false then probe
  else
    let d0 := (probe.takeWhile isDigitCh).length
    let a := d0 + dotDigitGroupsLen (probe.drop d0)
    let b := ((probe.drop a).takeWhile isNumTrailCh).length
    if a + b < probe.length then
      let cleaned := pyStrip (probe.drop (a + b))
      if cleaned ≠ [] then cleaned else probe
    else if probe.length ≥ 2 then probe.drop (probe.length - 1)
    else probe

theorem length_dropWhile_le {α : Type} (p : α → Bool) (l : List α) :
    (l.dropWhile p).length ≤ l.length :=
  (List.dropWhile_sublist _).length_le

/-- The inner run-collection loop of `_normalize_heading_levels`: collect
the consecutive heading matches (skipping a blank stretch when the first
non-blank line after it is again a heading), returning the matches and
the remaining lines where the run ends. -/
def collectRun : List Str → List (Nat × Str) × List Str
  | [] => ([], [])
  | l :: rest =>
    if pyStrip l = [] then
      let after := rest.dropWhile (fun x => pyStrip x = [])
      if after ≠ [] ∧ (matchMdHeading (pyStrip (after.headD []))).isSome then
        collectRun after
      else ([], l :: rest)
    else
      match matchMdHeading (pyStrip l) with
      | some m =>
        let res := collectRun rest
        (m :: res.1, res.2)
      | Option.none => ([], l :: rest)
termination_by ls => ls.length
decreasing_by
  · simp only [List.length_cons]
    exact Nat.lt_succ_of_le (length_dropWhile_le _ _)
  · simp only [List.length_cons]
    omega

/-- Emit one heading run: the first heading at the run's minimum level is
promoted to `# title`; every other heading of the run is replaced by its
numbering-stripped title. -/
def emitRun : List (Nat × Str) → Nat → Bool → List Str
  | [], _, _ => []
  | (lvl, title) :: rest, minLvl, kept =>
    if ¬kept ∧ lvl = minLvl then
      (s2l "# " ++ pyStrip title) :: emitRun rest minLvl true
    else stripHeadingNumbering (pyStrip title) :: emitRun rest minLvl kept

theorem collectRun_rem_le (ls : List Str) : (collectRun ls).2.length ≤ ls.length := by
  induction ls using collectRun.induct with
  | case1 => simp [collectRun]
  | case2 l rest hblank =>
    rename_i after hcond ih
    have ih2 : (collectRun (rest.dropWhile (fun x => pyStrip x = []))).2.length ≤
        (rest.dropWhile (fun x => pyStrip x = [])).length := ih
    rw [collectRun, if_pos hblank]
    rw [if_pos (by exact hcond)]
    have hsub := length_dropWhile_le (fun x => decide (pyStrip x = [])) rest
    simp only [List.length_cons]
    omega
  | case3 l rest hblank =>
    rename_i after hcond
    rw [collectRun, if_pos hblank]
    rw [if_neg (by exact hcond)]
  | case4 l rest hblank m hm ih =>
    rw [collectRun, if_neg hblank]
    simp only [hm]
    simp only [List.length_cons]
    omega
  | case5 l rest hblank hm =>
    rw [collectRun, if_neg hblank]
    simp only [hm]
    omega

/-- The outer loop of `_normalize_heading_levels` over the line list. -/
def normalizeGo : List Str → List Str
  | [] => []
  | l :: rest =>
    match matchMdHeading (pyStrip l) with
    | Option.none => l :: normalizeGo rest
    | some m =>
      let res := collectRun rest
      let minLvl := (res.1.map Prod.fst).foldl Nat.min m.1
      emitRun ((m :: res.1)) minLvl false ++ normalizeGo res.2
termination_by ls => ls.length
decreasing_by
  · simp only [List.length_cons]
    omega
  · simp only [List.length_cons]
    exact Nat.lt_succ_of_le (collectRun_rem_le _)

/-- `_normalize_heading_levels(text)`. -/
def normalizeHeadingLevels (text : Str) : Str :=
  joinChar '\n' (normalizeGo (splitOnChar '\n' text))

end ZMD.Splitter

namespace ZMD.Splitter

/-- `_line_start_offsets(lines)`: cumulative character offsets, counting a
newline after every line but the last. -/
def lineStartOffsetsGo : List Str → Nat → List Nat
  | [], _ => []
  | l :: rest, cursor =>
    cursor :: lineStartOffsetsGo rest (cursor + l.length + (if rest = [] then 0 else 1))

def lineStartOffsets (lines : List Str) : List Nat :=
  lineStartOffsetsGo lines 0

/-- The `(line index, char offset)` pairs of the lines whose stripped text
starts with `"# "` (the `headings` list of `_split_text_into_upload_docs`). -/
def headingsGo : List Str → List Nat → Nat → List (Nat × Nat)
  | [], _, _ => []
  | _ :: _, [], _ => []
  | l :: rest, off :: offs, idx =>
    (if (s2l "# ").isPrefixOf (pyStrip l) then [(idx, off)] else []) ++
      headingsGo rest offs (idx + 1)

/-- `_pick_doc_cut_line(headings, line_offsets, start_line, target_offset)`:
last heading at or before the target and first one after it (both strictly
after `start_line`), then whichever is closest to the target (ties to the
earlier one). -/
def pickDocCutGo (startLine target : Nat) :
    List (Nat × Nat) → Option (Nat × Nat) → Option Nat
  | [], prev => prev.map Prod.fst
  | (li, off) :: rest, prev =>
    if li ≤ startLine then pickDocCutGo startLine target rest prev
    else if off ≤ target then pickDocCutGo startLine target rest (some (li, off))
    else
      match prev with
      | Option.none => some li
      | some pv => if target - pv.2 ≤ off - target then some pv.1 else some li

def pickDocCutLine (headings : List (Nat × Nat)) (startLine target : Nat) : Option Nat :=
  pickDocCutGo startLine target headings Option.none

/-- `_line_at_or_before_offset(line_offsets, target_offset, min_line)`:
`bisect_right` on the sorted offsets (the count of offsets at or below the
target) minus one, clamped to `[min_line, len-1]`.  The callers always
pass `min_line ≥ 1` and offsets starting at 0, so the `-1` never goes
below zero meaningfully. -/
def lineAtOrBeforeOffset (offsets : List Nat) (target minLine : Nat) : Nat :=
  let idx := (offsets.countP (fun o => o ≤ target)) - 1
  let idx := if idx < minLine then minLine else idx
  if idx ≥ offsets.length then offsets.length - 1 else idx

/-- The cut-line choice of one iteration of `_split_text_into_upload_docs`
(the heading pick when it stays within `max_chars` of the start, else the
hard cut); the boolean records whether it was a heading cut. -/
def chooseCutLine (offsets : List Nat) (headings : List (Nat × Nat))
    (startLine startOffset target maxChars : Nat) : Nat × Bool :=
  match pickDocCutLine headings startLine target with
  | some cl =>
    if offsets.getD cl 0 - startOffset ≤ maxChars then (cl, true)
    else (lineAtOrBeforeOffset offsets target (startLine + 1), false)
  | Option.none => (lineAtOrBeforeOffset offsets target (startLine + 1), false)

/-- `if cut_line <= start_line: cut_line = min(len(lines), start_line + 1)`. -/
def clampCut (nlines startLine cl : Nat) : Nat :=
  if cl ≤ startLine then min nlines (startLine + 1) else cl

theorem clampCut_gt (nlines startLine cl : Nat) (h : startLine < nlines) :
    startLine < clampCut nlines startLine cl := by
  unfold clampCut
  by_cases hc : cl ≤ startLine
  · rw [if_pos hc]
    omega
  · rw [if_neg hc]
    omega

/-- The chunking loop of `_split_text_into_upload_docs`: returns the
non-empty stripped chunks plus the heading-cut and hard-cut counters. -/
def splitUploadGo (lines : List Str) (offsets : List Nat) (headings : List (Nat × Nat))
    (totalLen maxChars : Nat) (startLine : Nat) : List Str × Nat × Nat :=
  if h : startLine < lines.length then
    let startOffset := offsets.getD startLine 0
    if totalLen - startOffset ≤ maxChars then
      let tail := pyStrip (joinChar '\n' (lines.drop startLine))
      (if tail ≠ [] then [tail] else [], 0, 0)
    else
      let target := startOffset + maxChars
      let cut := chooseCutLine offsets headings startLine startOffset target maxChars
      let cutLine := clampCut lines.length startLine cut.1
      let chunk := pyStrip (joinChar '\n' ((lines.drop startLine).take (cutLine - startLine)))
      let res := splitUploadGo lines offsets headings totalLen maxChars cutLine
      ((if chunk ≠ [] then chunk :: res.1 else res.1),
        res.2.1 + (if cut.2 then 1 else 0), res.2.2 + (if cut.2 then 0 else 1))
  else ([], 0, 0)
termination_by lines.length - startLine
decreasing_by
  have := clampCut_gt lines.length startLine
    (chooseCutLine offsets headings startLine (offsets.getD startLine 0)
      (offsets.getD startLine 0 + maxChars) maxChars).1 h
  omega

/-- The byte-offset slicing of an oversized chunk (`part[start:start+max]`
repeatedly).  The caller guarantees `maxChars > 0`; the `maxChars = 0`
guard only makes the model total where the source would not terminate. -/
def slicePart (maxChars : Nat) (part : Str) : List Str :=
  if part = [] then []
  else if maxChars = 0 then [part]
  else part.take maxChars :: slicePart maxChars (part.drop maxChars)
termination_by part.length
decreasing_by
  rename_i hne hmax
  have hlen : part.length ≠ 0 := fun hz => hne (List.eq_nil_of_length_eq_zero hz)
  simp only [List.length_drop]
  omega

/-- The safety pass of `_split_text_into_upload_docs`: chunks longer than
`max_chars` are sliced; each emitted slice increments `hard_cuts`. -/
def safePass (maxChars : Nat) : List Str → List Str × Nat
  | [] => ([], 0)
  | part :: rest =>
    let res := safePass maxChars rest
    if part.length ≤ maxChars then (part :: res.1, res.2)
    else
      let slices := slicePart maxChars part
      (slices ++ res.1, slices.length + res.2)

/-- `_split_text_into_upload_docs(text, marker, max_chars)`. -/
def splitTextIntoUploadDocs (text marker : Str) (maxChars : Nat) : List Str × Nat × Nat :=
  let normalized := stripExistingMarkers text marker
  if normalized.length ≤ maxChars then ([normalized], 0, 0)
  else
    let lines := splitOnChar '\n' normalized
    if lines = [] then ([normalized], 0, 0)
    else
      let offsets := lineStartOffsets lines
      let headings := headingsGo lines offsets 0
      let res := splitUploadGo lines offsets headings normalized.length maxChars 0
      if res.1 = [] then ([normalized], 0, 0)
      else
        let safe := safePass maxChars res.1
        (safe.1, res.2.1, res.2.2 + safe.2)

/-- The stem/extension split of `_build_part_file_name`'s regex
`^(.*?)(\.[^.]+)?$`: the lazy stem stops at the first position whose
remainder is empty or is a dot followed by one or more non-dot
characters; an empty second component means the optional group did not
match. -/
def splitStemExt : Str → Str × Str
  | [] => ([], [])
  | c :: rest =>
    if c = '.' ∧ rest ≠ [] ∧ '.' ∉ rest then ([], c :: rest)
    else
      let res := splitStemExt rest
      (c :: res.1, res.2)

/-- `_build_part_file_name(file_name, part_index, total_parts)`. -/
def buildPartFileName (fileName : String) (partIdx totalParts : Nat) : String :=
  let base := if fileName ≠ "" then fileName else "document.md"
  let se := splitStemExt base.toList
  let ext := if se.2 = [] then s2l ".md" else se.2
  (se.1 ++ s2l ".part" ++ s2l (toString partIdx) ++ s2l "of" ++ s2l (toString totalParts) ++
    ext).asString

/-- The fields of one `md_results` entry that the upload-size partitioner
reads and writes (`text`, `file_name`, and the part metadata it adds to
children). -/
structure UploadDoc where
  text : Str
  fileName : String := ""
  sourceFileName : String := ""
  parentTaskKey : String := ""
  partIndex : Nat := 0
  partTotal : Nat := 0
  deriving DecidableEq, Repr

/-- The per-document loop of `split_documents_for_upload`: outputs the
documents in order plus `(split_source_files, total_parts, heading_cuts,
hard_cuts)`. -/
def splitDocsGo (marker : Str) (maxEff : Nat) :
    List (String × UploadDoc) → List (String × UploadDoc) × Nat × Nat × Nat × Nat
  | [] => ([], 0, 0, 0, 0)
  | (key, data) :: rest =>
    let normalized := normalizeHeadingLevels data.text
    let res := splitTextIntoUploadDocs normalized marker maxEff
    let parts := res.1
    let acc := splitDocsGo marker maxEff rest
    if parts.length ≤ 1 then
      ((key, { data with text := parts.headD normalized }) :: acc.1,
        acc.2.1, acc.2.2.1 + parts.length, acc.2.2.2.1 + res.2.1, acc.2.2.2.2 + res.2.2)
    else
      let sourceName := data.fileName
      let children := parts.enum.map (fun ip =>
        (key ++ "#part" ++ toString (ip.1 + 1),
          { data with
            text := ip.2,
            fileName := buildPartFileName sourceName (ip.1 + 1) parts.length,
            sourceFileName := sourceName,
            parentTaskKey := key,
            partIndex := ip.1 + 1,
            partTotal := parts.length }))
      (children ++ acc.1,
        acc.2.1 + 1, acc.2.2.1 + parts.length, acc.2.2.2.1 + res.2.1, acc.2.2.2.2 + res.2.2)

/-- The aggregated statistics of `split_documents_for_upload`. -/
structure UploadSplitStats where
  maxChars : Nat
  sourceFiles : Nat
  outputDocs : Nat
  splitSourceFiles : Nat
  totalParts : Nat
  headingCuts : Nat
  hardCuts : Nat
  deriving DecidableEq, Repr

/-- `split_documents_for_upload(md_results, cfg, max_chars)`; the split
marker is the caller-resolved `cfg["smart_split"]["split_marker"]`, and
`maxChars = 0` models a falsy `max_chars` (`int(max_chars or 300_000)`),
after which the bound is clamped to at least 10,000. -/
def splitDocumentsForUpload (mdResults : List (String × UploadDoc)) (marker : Str)
    (maxChars : Nat) : List (String × UploadDoc) × UploadSplitStats :=
  let eff := max 10000 (if maxChars = 0 then 300000 else maxChars)
  let res := splitDocsGo marker eff mdResults
  (res.1,
    { maxChars := eff, sourceFiles := mdResults.length, outputDocs := res.1.length,
      splitSourceFiles := res.2.1, totalParts := res.2.2.1,
      headingCuts := res.2.2.2.1, hardCuts := res.2.2.2.2 })

end ZMD.Splitter

namespace ZMD.Splitter

theorem pyStrip_eq_nil_iff (s : Str) : pyStrip s = [] ↔ ∀ c ∈ s, isPyWs c := by
  unfold pyStrip
  rw [List.reverse_eq_nil_iff, List.dropWhile_eq_nil_iff]
  constructor
  · intro h c hc
    rcases List.mem_append.1 (by rw [List.takeWhile_append_dropWhile (p := isPyWs) (l := s)]; exact hc) with hm | hm
    · exact List.mem_takeWhile_imp hm
    · exact h c (List.mem_reverse.2 hm)
  · intro h c hc
    exact h c ((List.dropWhile_sublist isPyWs).subset (List.mem_reverse.1 hc))

theorem splitOnChar_ne_nil (sep : Char) (s : Str) : splitOnChar sep s ≠ [] := by
  cases s with
  | nil => simp [splitOnChar]
  | cons a rest =>
    unfold splitOnChar
    cases h : splitOnChar sep rest with
    | nil => simp
    | cons hd tl =>
      by_cases ha : a = sep
      · simp [ha]
      · simp [ha]

theorem splitOnChar_no_sep (sep : Char) (s : Str) (h : sep ∉ s) :
    splitOnChar sep s = [s] := by
  induction s with
  | nil => rfl
  | cons a rest ih =>
    have ha : ¬ a = sep := fun he => h (he ▸ List.mem_cons_self a rest)
    have hr : sep ∉ rest := fun hm => h (List.mem_cons_of_mem a hm)
    unfold splitOnChar
    rw [ih hr]
    simp [ha]

theorem joinChar_nil (sep : Char) : joinChar sep [] = [] := by
  simp [joinChar, List.intercalate]

theorem joinChar_single (sep : Char) (s : Str) : joinChar sep [s] = s := by
  simp [joinChar, List.intercalate]

theorem joinChar_cons_cons (sep : Char) (a b : Str) (t : List Str) :
    joinChar sep (a :: b :: t) = a ++ sep :: joinChar sep (b :: t) := by
  simp [joinChar, List.intercalate, List.intersperse]

theorem join_splitOnChar (sep : Char) (s : Str) :
    joinChar sep (splitOnChar sep s) = s := by
  induction s with
  | nil => simp [splitOnChar, joinChar, List.intercalate]
  | cons a rest ih =>
    unfold splitOnChar
    cases h : splitOnChar sep rest with
    | nil => exact absurd h (splitOnChar_ne_nil sep rest)
    | cons hd tl =>
      rw [h] at ih
      by_cases ha : a = sep
      · show joinChar sep (if a = sep then [] :: hd :: tl else (a :: hd) :: tl) = a :: rest
        rw [if_pos ha, joinChar_cons_cons]
        simp [ha, ih]
      · show joinChar sep (if a = sep then [] :: hd :: tl else (a :: hd) :: tl) = a :: rest
        rw [if_neg ha]
        cases tl with
        | nil =>
          rw [joinChar_single] at ih ⊢
          simp [ih]
        | cons b t =>
          rw [joinChar_cons_cons] at ih
          rw [joinChar_cons_cons]
          simp [← ih]

theorem mem_joinChar_of_mem (sep : Char) (L : List Str) (l : Str) (c : Char)
    (hl : l ∈ L) (hc : c ∈ l) : c ∈ joinChar sep L := by
  induction L with
  | nil => cases hl
  | cons a t ih =>
    cases t with
    | nil =>
      rw [List.mem_singleton] at hl
      rw [joinChar_single]
      exact hl ▸ hc
    | cons b t2 =>
      rw [joinChar_cons_cons]
      rcases List.mem_cons.1 hl with he | hm
      · exact List.mem_append.2 (Or.inl (he ▸ hc))
      · exact List.mem_append.2 (Or.inr (List.mem_cons_of_mem sep (ih hm)))

theorem mem_joinChar_cases (sep : Char) (L : List Str) (c : Char)
    (hc : c ∈ joinChar sep L) : c = sep ∨ ∃ l ∈ L, c ∈ l := by
  induction L with
  | nil => rw [joinChar_nil] at hc; cases hc
  | cons a t ih =>
    cases t with
    | nil =>
      rw [joinChar_single] at hc
      exact Or.inr ⟨a, List.mem_singleton_self a, hc⟩
    | cons b t2 =>
      rw [joinChar_cons_cons] at hc
      rcases List.mem_append.1 hc with hm | hm
      · exact Or.inr ⟨a, List.mem_cons_self a _, hm⟩
      · rcases List.mem_cons.1 hm with he | hm2
        · exact Or.inl he
        · rcases ih hm2 with he | ⟨l, hl, hcl⟩
          · exact Or.inl he
          · exact Or.inr ⟨l, List.mem_cons_of_mem a hl, hcl⟩

theorem pyStrip_ne_nil_iff (s : Str) : pyStrip s ≠ [] ↔ ∃ c ∈ s, ¬ isPyWs c := by
  rw [Ne, pyStrip_eq_nil_iff]
  push_neg
  rfl

theorem pyStrip_joinChar_ne_nil_iff (L : List Str) :
    pyStrip (joinChar '\n' L) ≠ [] ↔ ∃ l ∈ L, pyStrip l ≠ [] := by
  rw [pyStrip_ne_nil_iff]
  constructor
  · rintro ⟨c, hc, hw⟩
    rcases mem_joinChar_cases '\n' L c hc with he | ⟨l, hl, hcl⟩
    · exact absurd (by rw [he]; decide) hw
    · exact ⟨l, hl, (pyStrip_ne_nil_iff l).2 ⟨c, hcl, hw⟩⟩
  · rintro ⟨l, hl, hne⟩
    rcases (pyStrip_ne_nil_iff l).1 hne with ⟨c, hcl, hw⟩
    exact ⟨c, mem_joinChar_of_mem '\n' L l c hl hcl, hw⟩

end ZMD.Splitter

namespace ZMD.Splitter

theorem splitUploadGo_stop (lines : List Str) (offsets : List Nat)
    (headings : List (Nat × Nat)) (totalLen maxChars startLine : Nat)
    (h : ¬ startLine < lines.length) :
    splitUploadGo lines offsets headings totalLen maxChars startLine = ([], 0, 0) := by
  rw [splitUploadGo.eq_def]
  rw [dif_neg h]

theorem splitUploadGo_tail (lines : List Str) (offsets : List Nat)
    (headings : List (Nat × Nat)) (totalLen maxChars startLine : Nat)
    (h : startLine < lines.length)
    (h2 : totalLen - offsets.getD startLine 0 ≤ maxChars) :
    splitUploadGo lines offsets headings totalLen maxChars startLine =
      (if pyStrip (joinChar '\n' (lines.drop startLine)) ≠ [] then
        [pyStrip (joinChar '\n' (lines.drop startLine))] else [], 0, 0) := by
  rw [splitUploadGo.eq_def]
  simp only [dif_pos h, if_pos h2]

theorem splitUploadGo_chunk (lines : List Str) (offsets : List Nat)
    (headings : List (Nat × Nat)) (totalLen maxChars startLine : Nat)
    (h : startLine < lines.length)
    (h2 : ¬ totalLen - offsets.getD startLine 0 ≤ maxChars)
    (cut : Nat × Bool) (cutLine : Nat) (chunk : Str)
    (hcut : cut = chooseCutLine offsets headings startLine (offsets.getD startLine 0)
        (offsets.getD startLine 0 + maxChars) maxChars)
    (hcl : cutLine = clampCut lines.length startLine cut.1)
    (hch : chunk = pyStrip (joinChar '\n' ((lines.drop startLine).take (cutLine - startLine)))) :
    splitUploadGo lines offsets headings totalLen maxChars startLine =
      ((if chunk ≠ [] then
          chunk :: (splitUploadGo lines offsets headings totalLen maxChars cutLine).1
        else (splitUploadGo lines offsets headings totalLen maxChars cutLine).1),
        (splitUploadGo lines offsets headings totalLen maxChars cutLine).2.1 +
          (if cut.2 then 1 else 0),
        (splitUploadGo lines offsets headings totalLen maxChars cutLine).2.2 +
          (if cut.2 then 0 else 1)) := by
  subst hcut
  subst hcl
  subst hch
  conv_lhs => rw [splitUploadGo.eq_def]
  simp only [dif_pos h, if_neg h2]

theorem slicePart_nil (m : Nat) : slicePart m [] = [] := by
  rw [slicePart.eq_def]
  simp

theorem slicePart_step (m : Nat) (part : Str) (h : part ≠ []) (hm : m ≠ 0) :
    slicePart m part = part.take m :: slicePart m (part.drop m) := by
  conv_lhs => rw [slicePart.eq_def]
  simp only [if_neg h, if_neg hm]

theorem slicePart_ne_nil (m : Nat) (part : Str) (h : part ≠ []) :
    slicePart m part ≠ [] := by
  by_cases hm : m = 0
  · rw [slicePart.eq_def]
    simp only [if_neg h, if_pos hm]
    simp
  · rw [slicePart_step m part h hm]
    simp

theorem slicePart_bound (m : Nat) (hm : 0 < m) :
    ∀ n part, part.length ≤ n → ∀ p ∈ slicePart m part, p.length ≤ m := by
  intro n
  induction n with
  | zero =>
    intro part hlen p hp
    have : part = [] := List.eq_nil_of_length_eq_zero (Nat.le_zero.1 hlen)
    rw [this, slicePart_nil] at hp
    cases hp
  | succ n ih =>
    intro part hlen p hp
    by_cases h : part = []
    · rw [h, slicePart_nil] at hp
      cases hp
    · rw [slicePart_step m part h (Nat.pos_iff_ne_zero.1 hm)] at hp
      rcases List.mem_cons.1 hp with he | hm2
      · rw [he, List.length_take]
        exact min_le_left m part.length
      · have hplen : 0 < part.length := List.length_pos.2 h
        refine ih (part.drop m) ?_ p hm2
        rw [List.length_drop]
        omega

theorem safePass_bound (m : Nat) (hm : 0 < m) :
    ∀ l, ∀ p ∈ (safePass m l).1, p.length ≤ m := by
  intro l
  induction l with
  | nil =>
    intro p hp
    cases hp
  | cons part rest ih =>
    intro p hp
    simp only [safePass] at hp
    by_cases hc : part.length ≤ m
    · rw [if_pos hc] at hp
      rcases List.mem_cons.1 hp with he | hm2
      · rw [he]; exact hc
      · exact ih p hm2
    · rw [if_neg hc] at hp
      rcases List.mem_append.1 hp with hm2 | hm2
      · exact slicePart_bound m hm part.length part (le_refl _) p hm2
      · exact ih p hm2

theorem safePass_ne_nil (m : Nat) (l : List Str) (hl : l ≠ []) :
    (safePass m l).1 ≠ [] := by
  cases l with
  | nil => exact absurd rfl hl
  | cons part rest =>
    simp only [safePass]
    by_cases hc : part.length ≤ m
    · rw [if_pos hc]
      simp
    · rw [if_neg hc]
      have hpne : part ≠ [] := by
        intro he
        rw [he] at hc
        exact hc (by simp)
      simp only [ne_eq]
      intro hcon
      rcases List.append_eq_nil.1 hcon with ⟨h1, _⟩
      exact slicePart_ne_nil m part hpne h1

end ZMD.Splitter

namespace ZMD.Splitter

theorem splitUploadGo_ne_nil (lines : List Str) (offsets : List Nat)
    (headings : List (Nat × Nat)) (totalLen maxChars : Nat) :
    ∀ n startLine, lines.length - startLine ≤ n → startLine < lines.length →
      pyStrip (joinChar '\n' (lines.drop startLine)) ≠ [] →
      (splitUploadGo lines offsets headings totalLen maxChars startLine).1 ≠ [] := by
  intro n
  induction n with
  | zero =>
    intro s h0 hlt _
    omega
  | succ n ih =>
    intro s hle hlt hink
    by_cases h2 : totalLen - offsets.getD s 0 ≤ maxChars
    · rw [splitUploadGo_tail lines offsets headings totalLen maxChars s hlt h2]
      simp only [if_pos hink]
      simp
    · rw [splitUploadGo_chunk lines offsets headings totalLen maxChars s hlt h2
        (chooseCutLine offsets headings s (offsets.getD s 0)
          (offsets.getD s 0 + maxChars) maxChars)
        (clampCut lines.length s (chooseCutLine offsets headings s (offsets.getD s 0)
          (offsets.getD s 0 + maxChars) maxChars).1)
        (pyStrip (joinChar '\n' ((lines.drop s).take
          (clampCut lines.length s (chooseCutLine offsets headings s (offsets.getD s 0)
            (offsets.getD s 0 + maxChars) maxChars).1 - s)))) rfl rfl rfl]
      set cut := chooseCutLine offsets headings s (offsets.getD s 0)
        (offsets.getD s 0 + maxChars) maxChars with hcutdef
      set CL := clampCut lines.length s cut.1 with hCLdef
      have hgt : s < CL := clampCut_gt lines.length s cut.1 hlt
      have hdecomp : lines.drop s = (lines.drop s).take (CL - s) ++ lines.drop CL := by
        have h1 : (lines.drop s).take (CL - s) ++ (lines.drop s).drop (CL - s) =
            lines.drop s := List.take_append_drop _ _
        have h3 : (lines.drop s).drop (CL - s) = lines.drop CL := by
          rw [List.drop_drop]
          congr 1
          omega
        rw [h3] at h1
        exact h1.symm
      have hink2 : pyStrip (joinChar '\n'
          ((lines.drop s).take (CL - s) ++ lines.drop CL)) ≠ [] := by
        rw [← hdecomp]
        exact hink
      rcases (pyStrip_joinChar_ne_nil_iff _).1 hink2 with ⟨l, hl, hlne⟩
      rcases List.mem_append.1 hl with hml | hml
      · have hchunk : pyStrip (joinChar '\n' ((lines.drop s).take (CL - s))) ≠ [] :=
          (pyStrip_joinChar_ne_nil_iff _).2 ⟨l, hml, hlne⟩
        simp only [if_pos hchunk]
        simp
      · have hCLlt : CL < lines.length := by
          have hdne : lines.drop CL ≠ [] := List.ne_nil_of_mem hml
          have := List.length_pos.2 hdne
          rw [List.length_drop] at this
          omega
        have hres := ih CL (by omega) hCLlt
          ((pyStrip_joinChar_ne_nil_iff _).2 ⟨l, hml, hlne⟩)
        by_cases hch : pyStrip (joinChar '\n' ((lines.drop s).take (CL - s))) ≠ []
        · simp only [if_pos hch]
          simp
        · simp only [if_neg hch]
          exact hres

end ZMD.Splitter

namespace ZMD.Splitter

theorem splitTextIntoUploadDocs_ne_nil (text marker : Str) (m : Nat) :
    (splitTextIntoUploadDocs text marker m).1 ≠ [] := by
  simp only [splitTextIntoUploadDocs]
  split_ifs with h1 h2 h3
  · simp
  · simp
  · simp
  · exact safePass_ne_nil m _ h3

theorem splitTextIntoUploadDocs_bound (text marker : Str) (m : Nat) (hm : 0 < m)
    (hok : (stripExistingMarkers text marker).length ≤ m ∨
      ∃ c ∈ stripExistingMarkers text marker, ¬ isPyWs c) :
    ∀ p ∈ (splitTextIntoUploadDocs text marker m).1, p.length ≤ m := by
  intro p hp
  by_cases h1 : (stripExistingMarkers text marker).length ≤ m
  · simp only [splitTextIntoUploadDocs] at hp
    rw [if_pos h1] at hp
    rcases List.mem_singleton.1 hp with he
    rw [he]
    exact h1
  · rcases hok with hok | hok
    · exact absurd hok h1
    have hlines_ne : splitOnChar '\n' (stripExistingMarkers text marker) ≠ [] :=
      splitOnChar_ne_nil _ _
    have hink : pyStrip (joinChar '\n'
        ((splitOnChar '\n' (stripExistingMarkers text marker)).drop 0)) ≠ [] := by
      rw [List.drop_zero, join_splitOnChar]
      exact (pyStrip_ne_nil_iff _).2 hok
    have hres := splitUploadGo_ne_nil (splitOnChar '\n' (stripExistingMarkers text marker))
      (lineStartOffsets (splitOnChar '\n' (stripExistingMarkers text marker)))
      (headingsGo (splitOnChar '\n' (stripExistingMarkers text marker))
        (lineStartOffsets (splitOnChar '\n' (stripExistingMarkers text marker))) 0)
      (stripExistingMarkers text marker).length m
      (splitOnChar '\n' (stripExistingMarkers text marker)).length 0
      (by omega) (List.length_pos.2 hlines_ne) hink
    simp only [splitTextIntoUploadDocs] at hp
    rw [if_neg h1, if_neg hlines_ne, if_neg hres] at hp
    exact safePass_bound m hm _ p hp

theorem headD_mem (l : List Str) (d : Str) (h : l ≠ []) : l.headD d ∈ l := by
  cases l with
  | nil => exact absurd rfl h
  | cons a t => simp

theorem mem_enumFrom_snd (l : List Str) :
    ∀ (n : Nat) (p : Nat × Str), p ∈ List.enumFrom n l → p.2 ∈ l := by
  induction l with
  | nil =>
    intro n p hp
    cases hp
  | cons a t ih =>
    intro n p hp
    simp only [List.enumFrom] at hp
    rcases List.mem_cons.1 hp with he | hmem
    · rw [he]
      simp
    · exact List.mem_cons_of_mem a (ih (n + 1) p hmem)

end ZMD.Splitter

namespace ZMD.Splitter

theorem splitDocsGo_bound (marker : Str) (m : Nat) (hm : 0 < m) :
    ∀ md : List (String × UploadDoc),
      (∀ kd ∈ md,
        (stripExistingMarkers (normalizeHeadingLevels kd.2.text) marker).length ≤ m ∨
          ∃ c ∈ stripExistingMarkers (normalizeHeadingLevels kd.2.text) marker, ¬ isPyWs c) →
      ∀ kd ∈ (splitDocsGo marker m md).1, kd.2.text.length ≤ m := by
  intro md
  induction md with
  | nil =>
    intro _ kd hkd
    simp only [splitDocsGo] at hkd
    cases hkd
  | cons hd rest ih =>
    intro hhyp kd hkd
    obtain ⟨key, data⟩ := hd
    have hok := hhyp (key, data) (List.mem_cons_self _ _)
    have hbound := splitTextIntoUploadDocs_bound (normalizeHeadingLevels data.text)
      marker m hm hok
    have hne := splitTextIntoUploadDocs_ne_nil (normalizeHeadingLevels data.text) marker m
    simp only [splitDocsGo] at hkd
    by_cases hlen :
        (splitTextIntoUploadDocs (normalizeHeadingLevels data.text) marker m).1.length ≤ 1
    · rw [if_pos hlen] at hkd
      rcases List.mem_cons.1 hkd with he | hmem
      · rw [he]
        exact hbound _ (headD_mem _ _ hne)
      · exact ih (fun kd2 h2 => hhyp kd2 (List.mem_cons_of_mem _ h2)) kd hmem
    · rw [if_neg hlen] at hkd
      rcases List.mem_append.1 hkd with hmem | hmem
      · rcases List.mem_map.1 hmem with ⟨ip, hip, he⟩
        have htext : kd.2.text = ip.2 := by
          rw [← he]
        rw [htext]
        refine hbound ip.2 ?_
        simp only [List.enum] at hip
        exact mem_enumFrom_snd _ 0 ip hip
      · exact ih (fun kd2 h2 => hhyp kd2 (List.mem_cons_of_mem _ h2)) kd hmem

end ZMD.Splitter

namespace ZMD.Splitter

theorem normalizeGo_nil : normalizeGo [] = [] := by
  rw [normalizeGo.eq_def]

theorem normalizeGo_cons_nonheading (l : Str) (rest : List Str)
    (h : matchMdHeading (pyStrip l) = Option.none) :
    normalizeGo (l :: rest) = l :: normalizeGo rest := by
  conv_lhs => rw [normalizeGo.eq_def]
  simp only [h]

theorem mem_stripExistingMarkers (text marker : Str) (c : Char)
    (hc : c ∈ stripExistingMarkers text marker) : c = '\n' ∨ c ∈ text := by
  unfold stripExistingMarkers at hc
  rcases mem_joinChar_cases _ _ _ hc with he | ⟨l, hl, hcl⟩
  · exact Or.inl he
  · refine Or.inr ?_
    have hl2 : l ∈ splitOnChar '\n' text := List.mem_of_mem_filter hl
    have hmem := mem_joinChar_of_mem '\n' _ l c hl2 hcl
    rw [join_splitOnChar] at hmem
    exact hmem

theorem splitUploadGo_all_ws (lines : List Str) (offsets : List Nat)
    (headings : List (Nat × Nat)) (totalLen maxChars : Nat)
    (hws : ∀ l ∈ lines, pyStrip l = []) :
    ∀ n startLine, lines.length - startLine ≤ n →
      (splitUploadGo lines offsets headings totalLen maxChars startLine).1 = [] := by
  intro n
  induction n with
  | zero =>
    intro s hle
    rw [splitUploadGo_stop lines offsets headings totalLen maxChars s (by omega)]
  | succ n ih =>
    intro s hle
    by_cases hlt : s < lines.length
    · by_cases h2 : totalLen - offsets.getD s 0 ≤ maxChars
      · rw [splitUploadGo_tail lines offsets headings totalLen maxChars s hlt h2]
        have htail : ¬ pyStrip (joinChar '\n' (lines.drop s)) ≠ [] := by
          rw [not_not]
          by_contra hne
          rcases (pyStrip_joinChar_ne_nil_iff _).1 hne with ⟨l, hl, hlne⟩
          exact hlne (hws l (List.drop_subset s lines hl))
        simp only [if_neg htail]
      · rw [splitUploadGo_chunk lines offsets headings totalLen maxChars s hlt h2
          (chooseCutLine offsets headings s (offsets.getD s 0)
            (offsets.getD s 0 + maxChars) maxChars)
          (clampCut lines.length s (chooseCutLine offsets headings s (offsets.getD s 0)
            (offsets.getD s 0 + maxChars) maxChars).1)
          (pyStrip (joinChar '\n' ((lines.drop s).take
            (clampCut lines.length s (chooseCutLine offsets headings s (offsets.getD s 0)
              (offsets.getD s 0 + maxChars) maxChars).1 - s)))) rfl rfl rfl]
        set cut := chooseCutLine offsets headings s (offsets.getD s 0)
          (offsets.getD s 0 + maxChars) maxChars with hcutdef
        set CL := clampCut lines.length s cut.1 with hCLdef
        have hgt : s < CL := clampCut_gt lines.length s cut.1 hlt
        have hchunk : ¬ pyStrip (joinChar '\n' ((lines.drop s).take (CL - s))) ≠ [] := by
          rw [not_not]
          by_contra hne
          rcases (pyStrip_joinChar_ne_nil_iff _).1 hne with ⟨l, hl, hlne⟩
          exact hlne (hws l (List.drop_subset s lines (List.take_subset _ _ hl)))
        simp only [if_neg hchunk]
        exact ih CL (by omega)
    · rw [splitUploadGo_stop lines offsets headings totalLen maxChars s hlt]

theorem splitText_all_ws (text marker : Str) (m : Nat)
    (hws : ∀ c ∈ stripExistingMarkers text marker, isPyWs c) :
    splitTextIntoUploadDocs text marker m = ([stripExistingMarkers text marker], 0, 0) := by
  simp only [splitTextIntoUploadDocs]
  by_cases h1 : (stripExistingMarkers text marker).length ≤ m
  · rw [if_pos h1]
  · rw [if_neg h1]
    have hlinews : ∀ l ∈ splitOnChar '\n' (stripExistingMarkers text marker),
        pyStrip l = [] := by
      intro l hl
      refine (pyStrip_eq_nil_iff l).2 (fun c hc => ?_)
      have hcm := mem_joinChar_of_mem '\n' _ l c hl hc
      rw [join_splitOnChar] at hcm
      exact hws c hcm
    have hres := splitUploadGo_all_ws (splitOnChar '\n' (stripExistingMarkers text marker))
      (lineStartOffsets (splitOnChar '\n' (stripExistingMarkers text marker)))
      (headingsGo (splitOnChar '\n' (stripExistingMarkers text marker))
        (lineStartOffsets (splitOnChar '\n' (stripExistingMarkers text marker))) 0)
      (stripExistingMarkers text marker).length m hlinews
      (splitOnChar '\n' (stripExistingMarkers text marker)).length 0 (by omega)
    rw [if_neg (splitOnChar_ne_nil '\n' (stripExistingMarkers text marker)), if_pos hres]

end ZMD.Splitter

namespace ZMD.Splitter

/-- C1: for every document map, split marker and configured bound, with the
effective bound M taken from the returned statistics (`max(10_000,
int(max_chars or 300_000))`), every document returned by
`split_documents_for_upload` has text of length at most M — provided each
source document's marker-stripped, heading-normalized text either already
fits in M or contains at least one non-whitespace character (otherwise the
`if not parts` fallback returns the oversized text unsplit); moreover the
safety pass slices every oversized chunk into pieces of length at most M,
and M is always at least 10,000. -/
theorem C1_upload_size_bound (md : List (String × UploadDoc)) (marker : Str) (mc : Nat)
    (hink : ∀ kd ∈ md,
      (stripExistingMarkers (normalizeHeadingLevels kd.2.text) marker).length ≤
          (splitDocumentsForUpload md marker mc).2.maxChars ∨
        ∃ c ∈ stripExistingMarkers (normalizeHeadingLevels kd.2.text) marker, ¬ isPyWs c) :
    (∀ kd ∈ (splitDocumentsForUpload md marker mc).1,
        kd.2.text.length ≤ (splitDocumentsForUpload md marker mc).2.maxChars) ∧
    (∀ chunks, ∀ p ∈ (safePass (splitDocumentsForUpload md marker mc).2.maxChars chunks).1,
        p.length ≤ (splitDocumentsForUpload md marker mc).2.maxChars) ∧
    10000 ≤ (splitDocumentsForUpload md marker mc).2.maxChars := by
  have heff : (splitDocumentsForUpload md marker mc).2.maxChars =
      max 10000 (if mc = 0 then 300000 else mc) := rfl
  have h10k : 10000 ≤ (splitDocumentsForUpload md marker mc).2.maxChars := by
    rw [heff]
    exact le_max_left _ _
  have hm : 0 < (splitDocumentsForUpload md marker mc).2.maxChars := by omega
  refine ⟨?_, ?_, h10k⟩
  · intro kd hkd
    exact splitDocsGo_bound marker ((splitDocumentsForUpload md marker mc).2.maxChars)
      hm md hink kd hkd
  · intro chunks p hp
    exact safePass_bound _ hm chunks p hp

theorem C1_upload_size_bound_witness :
    (∀ kd ∈ [(("K" : String), ({ text := s2l "hello" } : UploadDoc))],
      (stripExistingMarkers (normalizeHeadingLevels kd.2.text) (s2l "<!--split-->")).length ≤
          (splitDocumentsForUpload [("K", { text := s2l "hello" })]
            (s2l "<!--split-->") 0).2.maxChars ∨
        ∃ c ∈ stripExistingMarkers (normalizeHeadingLevels kd.2.text) (s2l "<!--split-->"),
          ¬ isPyWs c) ∧
    ((∀ kd ∈ (splitDocumentsForUpload [("K", { text := s2l "hello" })]
          (s2l "<!--split-->") 0).1,
        kd.2.text.length ≤ (splitDocumentsForUpload [("K", { text := s2l "hello" })]
          (s2l "<!--split-->") 0).2.maxChars) ∧
      (∀ chunks, ∀ p ∈ (safePass (splitDocumentsForUpload [("K", { text := s2l "hello" })]
            (s2l "<!--split-->") 0).2.maxChars chunks).1,
          p.length ≤ (splitDocumentsForUpload [("K", { text := s2l "hello" })]
            (s2l "<!--split-->") 0).2.maxChars) ∧
      10000 ≤ (splitDocumentsForUpload [("K", { text := s2l "hello" })]
        (s2l "<!--split-->") 0).2.maxChars) := by
  have hnorm : normalizeHeadingLevels (s2l "hello") = s2l "hello" := by
    unfold normalizeHeadingLevels
    rw [splitOnChar_no_sep '\n' (s2l "hello") (by decide)]
    rw [normalizeGo_cons_nonheading (s2l "hello") [] (by decide)]
    rw [normalizeGo_nil, joinChar_single]
  have hhyp : ∀ kd ∈ [(("K" : String), ({ text := s2l "hello" } : UploadDoc))],
      (stripExistingMarkers (normalizeHeadingLevels kd.2.text) (s2l "<!--split-->")).length ≤
          (splitDocumentsForUpload [("K", { text := s2l "hello" })]
            (s2l "<!--split-->") 0).2.maxChars ∨
        ∃ c ∈ stripExistingMarkers (normalizeHeadingLevels kd.2.text) (s2l "<!--split-->"),
          ¬ isPyWs c := by
    intro kd hkd
    rw [List.mem_singleton.1 hkd]
    left
    show (stripExistingMarkers (normalizeHeadingLevels (s2l "hello"))
      (s2l "<!--split-->")).length ≤ _
    rw [hnorm]
    decide
  exact ⟨hhyp, C1_upload_size_bound [("K", { text := s2l "hello" })] (s2l "<!--split-->") 0 hhyp⟩

end ZMD.Splitter

namespace ZMD.Splitter

theorem splitDocsGo_cons_single (marker : Str) (m : Nat) (key : String)
    (data : UploadDoc) (rest : List (String × UploadDoc)) (p : Str)
    (hp : splitTextIntoUploadDocs (normalizeHeadingLevels data.text) marker m =
      ([p], 0, 0)) :
    splitDocsGo marker m ((key, data) :: rest) =
      ((key, { data with text := p }) :: (splitDocsGo marker m rest).1,
        (splitDocsGo marker m rest).2.1,
        (splitDocsGo marker m rest).2.2.1 + 1,
        (splitDocsGo marker m rest).2.2.2.1,
        (splitDocsGo marker m rest).2.2.2.2) := by
  simp only [splitDocsGo]
  rw [hp]
  rfl

theorem splitDocumentsForUpload_eval (md : List (String × UploadDoc)) (marker : Str)
    (mc : Nat) (out : List (String × UploadDoc)) (s1 s2 s3 s4 : Nat)
    (h : splitDocsGo marker (max 10000 (if mc = 0 then 300000 else mc)) md =
      (out, s1, s2, s3, s4)) :
    splitDocumentsForUpload md marker mc =
      (out, { maxChars := max 10000 (if mc = 0 then 300000 else mc),
              sourceFiles := md.length, outputDocs := out.length,
              splitSourceFiles := s1, totalParts := s2,
              headingCuts := s3, hardCuts := s4 }) := by
  simp only [splitDocumentsForUpload]
  rw [h]

/-- C1 counterexample: a 10,001-character all-whitespace document with
`max_chars = 10000` (effective bound M = 10,000) passes through
`split_documents_for_upload` unsplit, because every chunk of the cutting
loop strips to empty, the `if not parts` fallback returns the whole
normalized text as a single part, and the safety pass never sees it — so
the output document's text has length 10,001 > M, refuting the claimed
unconditional bound. -/
theorem C1_bound_counterexample :
    (splitDocumentsForUpload [("K", { text := List.replicate 10001 ' ' })]
        (s2l "<!--split-->") 10000).2.maxChars = 10000 ∧
    ∃ kd ∈ (splitDocumentsForUpload [("K", { text := List.replicate 10001 ' ' })]
        (s2l "<!--split-->") 10000).1,
      10000 < kd.2.text.length := by
  have hws : ∀ c ∈ stripExistingMarkers (List.replicate 10001 ' ') (s2l "<!--split-->"),
      isPyWs c := by
    intro c hc
    rcases mem_stripExistingMarkers _ _ c hc with he | hm
    · rw [he]
      decide
    · rw [List.eq_of_mem_replicate hm]
      decide
  have hstripped : stripExistingMarkers (List.replicate 10001 ' ') (s2l "<!--split-->") =
      List.replicate 10001 ' ' := by
    have h0 : pyStrip (List.replicate 10001 ' ') = [] := by
      refine (pyStrip_eq_nil_iff _).2 (fun c hc => ?_)
      rw [List.eq_of_mem_replicate hc]
      decide
    have h1 : splitOnChar '\n' (List.replicate 10001 ' ') =
        [List.replicate 10001 ' '] := by
      refine splitOnChar_no_sep '\n' _ (fun hmem => ?_)
      have := List.eq_of_mem_replicate hmem
      exact absurd this (by decide)
    unfold stripExistingMarkers
    rw [h1]
    have hpred : decide (pyStrip (List.replicate 10001 ' ') ≠
        pyStrip (s2l "<!--split-->")) = true := by
      rw [h0]
      rfl
    rw [List.filter_cons]
    rw [hpred]
    simp only [if_true, List.filter_nil, joinChar_single]
  have hnorm : normalizeHeadingLevels (List.replicate 10001 ' ') =
      List.replicate 10001 ' ' := by
    have h0 : pyStrip (List.replicate 10001 ' ') = [] := by
      refine (pyStrip_eq_nil_iff _).2 (fun c hc => ?_)
      rw [List.eq_of_mem_replicate hc]
      decide
    have h1 : splitOnChar '\n' (List.replicate 10001 ' ') =
        [List.replicate 10001 ' '] := by
      refine splitOnChar_no_sep '\n' _ (fun hmem => ?_)
      have := List.eq_of_mem_replicate hmem
      exact absurd this (by decide)
    unfold normalizeHeadingLevels
    rw [h1]
    rw [normalizeGo_cons_nonheading _ [] (by rw [h0]; rfl)]
    rw [normalizeGo_nil, joinChar_single]
  have hsplit : splitTextIntoUploadDocs (List.replicate 10001 ' ')
      (s2l "<!--split-->") 10000 =
      ([List.replicate 10001 ' '], 0, 0) := by
    rw [splitText_all_ws _ _ _ hws, hstripped]
  have hdocs : splitDocsGo (s2l "<!--split-->") 10000
      [("K", ({ text := List.replicate 10001 ' ' } : UploadDoc))] =
      ([("K", { text := List.replicate 10001 ' ' })], 0, 1, 0, 0) := by
    rw [splitDocsGo_cons_single (s2l "<!--split-->") 10000 "K"
      { text := List.replicate 10001 ' ' } [] (List.replicate 10001 ' ')
      (by rw [show ({ text := List.replicate 10001 ' ' } : UploadDoc).text =
          List.replicate 10001 ' ' from rfl, hnorm, hsplit])]
    rfl
  have hfull : splitDocumentsForUpload [("K", { text := List.replicate 10001 ' ' })]
      (s2l "<!--split-->") 10000 =
      ([("K", { text := List.replicate 10001 ' ' })],
        { maxChars := 10000, sourceFiles := 1, outputDocs := 1, splitSourceFiles := 0,
          totalParts := 1, headingCuts := 0, hardCuts := 0 }) := by
    have h := splitDocumentsForUpload_eval [("K", { text := List.replicate 10001 ' ' })]
      (s2l "<!--split-->") 10000 [("K", { text := List.replicate 10001 ' ' })] 0 1 0 0 hdocs
    exact h
  constructor
  · rw [hfull]
  · refine ⟨("K", { text := List.replicate 10001 ' ' }), ?_, ?_⟩
    · rw [hfull]
      exact List.mem_singleton_self _
    · show (10000 : Nat) < (List.replicate 10001 ' ').length
      rw [List.length_replicate]
      omega

end ZMD.Splitter

namespace ZMD.Cleaner

/-- The protected split marker `<!--split-->`. -/
def mdMarker : Str := s2l "<!--split-->"

/-- The temporary token `__MD_SPLIT_MARKER__` used by `_strip_html_tags`. -/
def markerToken : Str := s2l "__MD_SPLIT_MARKER__"

/-- Python `str.replace(pat, rep)` (leftmost, non-overlapping), with a fuel
argument set to the text length by `pyReplaceAll`; every step consumes at
least one input character, so the fuel never runs out.  Callers pass
non-empty patterns. -/
def pyReplace (pat rep : Str) : Nat → Str → Str
  | 0, s => s
  | _ + 1, [] => []
  | n + 1, c :: rest =>
    if pat ≠ [] ∧ pat.isPrefixOf (c :: rest) then
      rep ++ pyReplace pat rep n ((c :: rest).drop pat.length)
    else c :: pyReplace pat rep n rest

def pyReplaceAll (pat rep s : Str) : Str := pyReplace pat rep s.length s

/-- The alt-text loop of `_find_markdown_image_end`: number of characters
consumed before the `]` (backslash escapes two characters; a newline or
the end of the text aborts). -/
def scanAlt : Str → Option Nat
  | [] => Option.none
  | '\\' :: _ :: rest => (scanAlt rest).map (· + 2)
  | c :: rest =>
    if c = '\n' then Option.none
    else if c = ']' then some 0
    else (scanAlt rest).map (· + 1)

/-- The destination loop of `_find_markdown_image_end`: characters consumed
through the parenthesis that closes the nesting (the caller starts it on
the opening `(`, so the depth stays positive inside). -/
def scanDest : Str → Nat → Option Nat
  | [], _ => Option.none
  | '\\' :: _ :: rest, depth => (scanDest rest depth).map (· + 2)
  | c :: rest, depth =>
    if c = '\n' then Option.none
    else if c = '(' then (scanDest rest (depth + 1)).map (· + 1)
    else if c = ')' then
      if depth = 1 then some 1 else (scanDest rest (depth - 1)).map (· + 1)
    else (scanDest rest depth).map (· + 1)

/-- `_find_markdown_image_end(text, i)` on the suffix starting at `i`:
the number of characters of a valid `![alt](dest)` image, or `none`. -/
def findMdImageEnd (s : Str) : Option Nat :=
  match s with
  | '!' :: '[' :: rest =>
    match scanAlt rest with
    | Option.none => Option.none
    | some k =>
      let after := rest.drop (k + 1)
      let w := (after.takeWhile (fun c => c = ' ' || c = '\t')).length
      match after.drop w with
      | '(' :: r2 =>
        match scanDest ('(' :: r2) 0 with
        | Option.none => Option.none
        | some d => some (2 + (k + 1) + w + d)
      | _ => Option.none
  | _ => Option.none

/-- The character-scanning loop of `_remove_image_placeholders` (fuel is
set to the text length; each step consumes at least one character). -/
def imgScanGo : Nat → Str → Str
  | 0, s => s
  | _ + 1, [] => []
  | n + 1, c :: rest =>
    match findMdImageEnd (c :: rest) with
    | some k => imgScanGo n ((c :: rest).drop k)
    | Option.none => c :: imgScanGo n rest

/-- The lazy destination part of `_RE_IMAGE_PLACEHOLDER = !\[.*?\]\(.*?\)`:
the remainder after the first `)` (a newline or the end aborts). -/
def phDest : Str → Option Str
  | [] => Option.none
  | c :: rest =>
    if c = ')' then some rest
    else if c = '\n' then Option.none
    else phDest rest

/-- The lazy alt part of `_RE_IMAGE_PLACEHOLDER` with backtracking: find
`](` with the smallest alt text whose destination part also closes. -/
def phAlt : Nat → Str → Option Str
  | 0, _ => Option.none
  | _ + 1, [] => Option.none
  | n + 1, ']' :: '(' :: r2 =>
    match phDest r2 with
    | some rem => some rem
    | Option.none => phAlt n ('(' :: r2)
  | n + 1, c :: r => if c = '\n' then Option.none else phAlt n r

/-- A match of `_RE_IMAGE_PLACEHOLDER` at the head of the text: the
remainder after the match. -/
def matchPh : Str → Option Str
  | '!' :: '[' :: rest => phAlt rest.length rest
  | _ => Option.none

/-- `_RE_IMAGE_PLACEHOLDER.sub("", ...)`: remove every leftmost
non-overlapping match (fuel = text length). -/
def phSubGo : Nat → Str → Str
  | 0, s => s
  | _ + 1, [] => []
  | n + 1, c :: rest =>
    match matchPh (c :: rest) with
    | some rem => phSubGo n rem
    | Option.none => c :: phSubGo n rest

/-- `_remove_image_placeholders(text)`: the precise character scan, then
the regex fallback pass on its output. -/
def removeImagePlaceholders (s : Str) : Str :=
  let t := imgScanGo s.length s
  phSubGo t.length t

/-- The scan for the `>` that closes `_RE_HTML_TAG = <[^>]+>` after at
least one non-`>` character has been consumed. -/
def tagEndGo : Str → Option Str
  | [] => Option.none
  | c :: r => if c = '>' then some r else tagEndGo r

/-- A match of `[^>]+>` right after a `<`: the remainder after the tag,
or `none` when the next character is already `>` or no `>` follows. -/
def tagEnd : Str → Option Str
  | [] => Option.none
  | c :: r => if c = '>' then Option.none else tagEndGo r

/-- `_RE_HTML_TAG.sub("", ...)` (fuel = text length). -/
def tagSubGo : Nat → Str → Str
  | 0, s => s
  | _ + 1, [] => []
  | n + 1, c :: rest =>
    if c = '<' then
      match tagEnd rest with
      | some r => tagSubGo n r
      | Option.none => c :: tagSubGo n rest
    else c :: tagSubGo n rest

/-- `_strip_html_tags(text)`: protect `<!--split-->` behind a token,
strip `<[^>]+>` tags, then restore the marker. -/
def stripHtmlTags (s : Str) : Str :=
  let prot1 := pyReplaceAll mdMarker markerToken s
  let prot2 := tagSubGo prot1.length prot1
  pyReplaceAll markerToken mdMarker prot2

/-- The class `_RE_CONTROL_CHARS = [\x00-\x08\x0b\x0c\x0e-\x1f]`. -/
def isCtrlRM (c : Char) : Bool :=
  c.toNat ≤ 0x08 || c.toNat = 0x0b || c.toNat = 0x0c ||
    (0x0e ≤ c.toNat && c.toNat ≤ 0x1f)

/-- `_remove_control_chars(text)`. -/
def removeControlChars (s : Str) : Str := s.filter (fun c => !isCtrlRM c)

/-- A match of `_RE_PAGE_NUMBER = ^\s*\d{1,4}\s*$` (MULTILINE) at an
anchored position: greedy leading whitespace (which may span line breaks),
one to four digits consuming the whole digit run, then trailing whitespace
up to the last line break of the run (exclusive) or the end of the text.
Returns the remainder and whether the resume position is again anchored
(it starts with the `\n` the match stopped at; it is anchored when the
character before it was also a `\n`). -/
def pnMatch (s : Str) : Option (Str × Bool) :=
  let w := (s.takeWhile isPyWs).length
  let s1 := s.drop w
  let d := (s1.takeWhile isDigitCh).length
  if 1 ≤ d ∧ d ≤ 4 then
    let s2 := s1.drop d
    let tw := s2.takeWhile isPyWs
    if s2.drop tw.length = [] then some ([], false)
    else
      let rIdx := (tw.reverse.takeWhile (fun c => ¬ c = '\n')).length
      if rIdx < tw.length then
        let j := tw.length - 1 - rIdx
        some (s2.drop j, decide (1 ≤ j) && decide ((tw.drop (j - 1)).head? = some '\n'))
      else Option.none
  else Option.none

/-- `_RE_PAGE_NUMBER.sub("", ...)`: scan every position, attempting a
match only at anchored positions (the start of the text, or just after a
`\n`); fuel = text length (a match consumes at least its digit). -/
def pnScanGo : Nat → Bool → Str → Str
  | 0, _, s => s
  | _ + 1, _, [] => []
  | n + 1, false, c :: rest => c :: pnScanGo n (decide (c = '\n')) rest
  | n + 1, true, c :: rest =>
    match pnMatch (c :: rest) with
    | some (rem, fl) => pnScanGo n fl rem
    | Option.none => c :: pnScanGo n (decide (c = '\n')) rest

/-- `_remove_page_numbers(text)`. -/
def removePageNumbers (s : Str) : Str := pnScanGo s.length true s

/-- `_collapse_blank_lines(text)`: `\n{3,}` runs become `\n\n`
(fuel = text length; a rewritten run is consumed whole). -/
def collapseGo : Nat → Str → Str
  | 0, s => s
  | _ + 1, [] => []
  | n + 1, c :: rest =>
    if c = '\n' then
      let k := 1 + (rest.takeWhile (fun x => x = '\n')).length
      if 3 ≤ k then '\n' :: '\n' :: collapseGo n (rest.drop (k - 1))
      else c :: collapseGo n rest
    else c :: collapseGo n rest

/-- `_collapse_blank_lines(text)`. -/
def collapseBlankLines (s : Str) : Str := collapseGo s.length s

/-- The `md_clean` configuration switches read by `clean_markdown`
(defaults as in the source's `.get` calls), together with the
`image_summary.enabled` flag it also consults. -/
structure MdCfg where
  enabled : Bool := true
  imageSummaryEnabled : Bool := true
  removeImagePlaceholders : Bool := true
  stripHtml : Bool := true
  removeControlChars : Bool := true
  removePageNumbers : Bool := false
  removeWatermark : Bool := false
  watermarkPatterns : String := ""
  collapseBlankLines : Bool := true
  deriving DecidableEq, Repr

/-- `clean_markdown(text, cfg)` (the returned text; stats are not
modelled).  `imgRewrite` abstracts `_rewrite_images_with_summaries`
(identity when `image_summary.enabled` is false) and `wmSub` abstracts
the `_remove_watermark` regex substitutions, which run only when
`remove_watermark` is set and the pattern string is non-empty. -/
def cleanMarkdown (cfg : MdCfg) (imgRewrite wmSub : Str → Str) (text : Str) : Str :=
  if cfg.enabled = false then text
  else if text = [] then []
  else
    let t0 := if cfg.imageSummaryEnabled then imgRewrite text else text
    let t1 := if cfg.removeImagePlaceholders then removeImagePlaceholders t0 else t0
    let t2 := if cfg.stripHtml then stripHtmlTags t1 else t1
    let t3 := if cfg.removeControlChars then removeControlChars t2 else t2
    let t4 := if cfg.removePageNumbers then removePageNumbers t3 else t3
    let t5 := if cfg.removeWatermark ∧ cfg.watermarkPatterns ≠ "" then wmSub t4 else t4
    let t6 := if cfg.collapseBlankLines then collapseBlankLines t5 else t5
    let cleaned := pyStrip t6
    if cleaned.length < 10 ∧ text.length ≥ 10 then text else cleaned

end ZMD.Cleaner

namespace ZMD.Cleaner

/-- C8 counterexample: with the default cleaner configuration (HTML
stripping enabled), the input `"<x <!--split--> y> hello world!"` contains
the protected marker, yet `_strip_html_tags` treats
`"<x __MD_SPLIT_MARKER__ y>"` as one HTML tag and deletes it, marker
included — the cleaned output `"hello world!"` no longer contains
`<!--split-->`, refuting the claim that no enabled rule ever removes a
marker occurrence. -/
theorem C8_html_strip_counterexample :
    List.IsInfix (s2l "<!--split-->") (s2l "<x <!--split--> y> hello world!") ∧
    cleanMarkdown { imageSummaryEnabled := false } id id
      (s2l "<x <!--split--> y> hello world!") = s2l "hello world!" ∧
    ¬ List.IsInfix (s2l "<!--split-->")
      (cleanMarkdown { imageSummaryEnabled := false } id id
        (s2l "<x <!--split--> y> hello world!")) := by
  refine ⟨by decide, by decide, by decide⟩

/-- C9 counterexample: with image summaries disabled (a pure cleaner),
`clean_markdown` is not idempotent: on `"hello world ![a]<b>(c)"` the
first pass misses the broken image (`<` instead of `(` after `]`) but
strips the `<b>` tag, producing `"hello world ![a](c)"`; the second pass
then removes the now well-formed image placeholder, yielding
`"hello world"` ≠ the first pass's output. -/
theorem C9_not_idempotent_counterexample :
    cleanMarkdown { imageSummaryEnabled := false } id id
      (s2l "hello world ![a]<b>(c)") = s2l "hello world ![a](c)" ∧
    cleanMarkdown { imageSummaryEnabled := false } id id
      (cleanMarkdown { imageSummaryEnabled := false } id id
        (s2l "hello world ![a]<b>(c)")) = s2l "hello world" ∧
    cleanMarkdown { imageSummaryEnabled := false } id id
      (cleanMarkdown { imageSummaryEnabled := false } id id
        (s2l "hello world ![a]<b>(c)")) ≠
      cleanMarkdown { imageSummaryEnabled := false } id id
        (s2l "hello world ![a]<b>(c)") := by
  refine ⟨by decide, by decide, by decide⟩

end ZMD.Cleaner

namespace ZMD.Cleaner

theorem takeWhile_append_stop (p : Char → Bool) (u : Str) (d : Char) (y : Str)
    (hd : p d = false) : ((u ++ d :: y).takeWhile p) = u.takeWhile p := by
  induction u with
  | nil => simp [List.takeWhile_cons, hd]
  | cons c u' ih =>
    simp only [List.cons_append, List.takeWhile_cons]
    by_cases hc : p c
    · simp [hc, ih]
    · simp [hc]

theorem dropWhile_append_stop (p : Char → Bool) (u : Str) (d : Char) (y : Str)
    (hd : p d = false) : ((u ++ d :: y).dropWhile p) = u.dropWhile p ++ d :: y := by
  induction u with
  | nil => simp [List.dropWhile_cons, hd]
  | cons c u' ih =>
    simp only [List.cons_append, List.dropWhile_cons]
    by_cases hc : p c
    · simp [hc, ih]
    · simp [hc]

theorem removeControlChars_preserves (s : Str) (h : List.IsInfix mdMarker s) :
    List.IsInfix mdMarker (removeControlChars s) := by
  rcases h with ⟨u, v, rfl⟩
  refine ⟨removeControlChars u, removeControlChars v, ?_⟩
  unfold removeControlChars
  rw [List.filter_append, List.filter_append]
  rw [show mdMarker.filter (fun c => !isCtrlRM c) = mdMarker from by decide]

theorem pyStrip_preserves (s : Str) (h : List.IsInfix mdMarker s) :
    List.IsInfix mdMarker (pyStrip s) := by
  rcases h with ⟨u, v, rfl⟩
  have h1 : (u ++ mdMarker ++ v).dropWhile isPyWs =
      u.dropWhile isPyWs ++ mdMarker ++ v := by
    have := dropWhile_append_stop isPyWs u '<' (s2l "!--split-->" ++ v) (by decide)
    simpa [mdMarker, s2l, List.append_assoc] using this
  have h2 : (v.reverse ++ mdMarker.reverse ++ (u.dropWhile isPyWs).reverse).dropWhile
      isPyWs = v.reverse.dropWhile isPyWs ++ mdMarker.reverse ++
        (u.dropWhile isPyWs).reverse := by
    have := dropWhile_append_stop isPyWs v.reverse '>'
      (s2l "--tilps--!<" ++ (u.dropWhile isPyWs).reverse) (by decide)
    have hrev : mdMarker.reverse = '>' :: s2l "--tilps--!<" := by decide
    simpa [hrev, List.append_assoc] using this
  refine ⟨u.dropWhile isPyWs, (v.reverse.dropWhile isPyWs).reverse, ?_⟩
  unfold pyStrip
  rw [h1]
  rw [show (u.dropWhile isPyWs ++ mdMarker ++ v).reverse =
    v.reverse ++ mdMarker.reverse ++ (u.dropWhile isPyWs).reverse from by
      simp [List.reverse_append, List.append_assoc]]
  rw [h2]
  simp [List.reverse_append, List.append_assoc]

end ZMD.Cleaner

namespace ZMD.Cleaner

theorem isInfix_cons_ext (M t : Str) (c : Char) (h : List.IsInfix M t) :
    List.IsInfix M (c :: t) := by
  rcases h with ⟨u, v, rfl⟩
  exact ⟨c :: u, v, rfl⟩

theorem collapseGo_emit (w : Str) (hw : '\n' ∉ w) :
    ∀ n t, w.length ≤ n → collapseGo n (w ++ t) = w ++ collapseGo (n - w.length) t := by
  induction w with
  | nil =>
    intro n t _
    simp
  | cons c w' ih =>
    intro n t hlen
    cases n with
    | zero => simp at hlen
    | succ n' =>
      have hc : ¬ c = '\n' := fun he => hw (he ▸ List.mem_cons_self c w')
      show collapseGo (n' + 1) (c :: (w' ++ t)) =
        (c :: w') ++ collapseGo (n' + 1 - (c :: w').length) t
      simp only [collapseGo]
      rw [if_neg hc]
      rw [ih (fun hm => hw (List.mem_cons_of_mem c hm)) n' t (by
        simp only [List.length_cons] at hlen
        omega)]
      have harith : n' + 1 - (c :: w').length = n' - w'.length := by
        simp only [List.length_cons]
        omega
      rw [harith]
      simp

theorem collapseGo_preserves :
    ∀ n s, s.length ≤ n → List.IsInfix mdMarker s →
      List.IsInfix mdMarker (collapseGo n s) := by
  intro n
  induction n with
  | zero =>
    intro s _ hm
    exact hm
  | succ n ih =>
    intro s hlen hm
    rcases hm with ⟨u, v, rfl⟩
    cases u with
    | nil =>
      simp only [List.nil_append] at hlen ⊢
      rw [collapseGo_emit mdMarker (by decide) (n + 1) v (by
        rw [List.length_append] at hlen
        omega)]
      exact ⟨[], collapseGo (n + 1 - mdMarker.length) v, by simp⟩
    | cons c u' =>
      have hlen2 : (u' ++ (mdMarker ++ v)).length ≤ n := by
        simp only [List.cons_append, List.length_cons, List.length_append,
          List.append_assoc] at hlen ⊢
        omega
    
      have hinf : List.IsInfix mdMarker (u' ++ (mdMarker ++ v)) :=
        ⟨u', v, by rw [List.append_assoc]⟩
      simp only [List.append_assoc, List.cons_append]
      simp only [collapseGo]
      by_cases hc : c = '\n'
      · rw [if_pos hc]
        have htw : ((u' ++ (mdMarker ++ v)).takeWhile (fun x => decide (x = '\n'))) =
            u'.takeWhile (fun x => decide (x = '\n')) := by
          have h0 := takeWhile_append_stop (fun x => decide (x = '\n')) u' '<'
            (s2l "!--split-->" ++ v) (by decide)
          simpa [mdMarker, s2l, List.append_assoc] using h0
        rw [htw]
        have hlen_tw : (u'.takeWhile (fun x => decide (x = '\n'))).length ≤
            u'.length := (List.takeWhile_sublist _).length_le
        by_cases h3 : 3 ≤ 1 + (u'.takeWhile (fun x => decide (x = '\n'))).length
        · rw [if_pos h3]
          have hdrop : ((u' ++ (mdMarker ++ v)).drop
              (1 + (u'.takeWhile (fun x => decide (x = '\n'))).length - 1)) =
              u'.drop (1 + (u'.takeWhile (fun x => decide (x = '\n'))).length - 1) ++
                (mdMarker ++ v) :=
            List.drop_append_of_le_length (by omega)
          rw [hdrop]
          refine isInfix_cons_ext _ _ _ (isInfix_cons_ext _ _ _ (ih _ ?_
            ⟨_, v, by rw [List.append_assoc]⟩))
          simp only [List.length_append, List.length_drop] at hlen2 ⊢
          omega
        · rw [if_neg h3]
          exact isInfix_cons_ext _ _ _ (ih _ hlen2 hinf)
      · rw [if_neg hc]
        exact isInfix_cons_ext _ _ _ (ih _ hlen2 hinf)

theorem collapseBlankLines_preserves (s : Str) (h : List.IsInfix mdMarker s) :
    List.IsInfix mdMarker (collapseBlankLines s) :=
  collapseGo_preserves s.length s (le_refl _) h

end ZMD.Cleaner

namespace ZMD.Cleaner

theorem pnMatch_none_head (c : Char) (rest : Str)
    (hws : isPyWs c = false) (hd : isDigitCh c = false) :
    pnMatch (c :: rest) = Option.none := by
  simp [pnMatch, List.takeWhile_cons, hws, hd]

theorem pnMatch_some_decomp (u v rem : Str) (fl' : Bool)
    (h : pnMatch (u ++ (mdMarker ++ v)) = some (rem, fl')) :
    ∃ m, 1 ≤ m ∧ m ≤ u.length ∧ rem = u.drop m ++ (mdMarker ++ v) := by
  have htw1 : ((u ++ (mdMarker ++ v)).takeWhile isPyWs) = u.takeWhile isPyWs := by
    have h0 := takeWhile_append_stop isPyWs u '<' (s2l "!--split-->" ++ v) (by decide)
    simpa [mdMarker, s2l, List.append_assoc] using h0
  have hwle : (u.takeWhile isPyWs).length ≤ u.length :=
    (List.takeWhile_sublist _).length_le
  have hdrop1 : ((u ++ (mdMarker ++ v)).drop (u.takeWhile isPyWs).length) =
      u.drop (u.takeWhile isPyWs).length ++ (mdMarker ++ v) :=
    List.drop_append_of_le_length hwle
  have htw2 : ((u.drop (u.takeWhile isPyWs).length ++ (mdMarker ++ v)).takeWhile
      isDigitCh) = (u.drop (u.takeWhile isPyWs).length).takeWhile isDigitCh := by
    have h0 := takeWhile_append_stop isDigitCh (u.drop (u.takeWhile isPyWs).length) '<'
      (s2l "!--split-->" ++ v) (by decide)
    simpa [mdMarker, s2l, List.append_assoc] using h0
  have hdle : ((u.drop (u.takeWhile isPyWs).length).takeWhile isDigitCh).length ≤
      (u.drop (u.takeWhile isPyWs).length).length :=
    (List.takeWhile_sublist _).length_le
  have hdrop2 : ((u.drop (u.takeWhile isPyWs).length ++ (mdMarker ++ v)).drop
      ((u.drop (u.takeWhile isPyWs).length).takeWhile isDigitCh).length) =
      (u.drop (u.takeWhile isPyWs).length).drop
        ((u.drop (u.takeWhile isPyWs).length).takeWhile isDigitCh).length ++
        (mdMarker ++ v) :=
    List.drop_append_of_le_length hdle
  set w := (u.takeWhile isPyWs).length with hwdef
  set ud := u.drop w with huddef
  set d := (ud.takeWhile isDigitCh).length with hddef
  set udd := ud.drop d with hudddef
  have htw3 : ((udd ++ (mdMarker ++ v)).takeWhile isPyWs) = udd.takeWhile isPyWs := by
    have h0 := takeWhile_append_stop isPyWs udd '<' (s2l "!--split-->" ++ v) (by decide)
    simpa [mdMarker, s2l, List.append_assoc] using h0
  have htle : (udd.takeWhile isPyWs).length ≤ udd.length :=
    (List.takeWhile_sublist _).length_le
  have hdrop3 : ((udd ++ (mdMarker ++ v)).drop (udd.takeWhile isPyWs).length) =
      udd.drop (udd.takeWhile isPyWs).length ++ (mdMarker ++ v) :=
    List.drop_append_of_le_length htle
  simp only [pnMatch, htw1, hdrop1, htw2, hdrop2, ← hwdef, ← huddef, ← hddef,
    ← hudddef, htw3, hdrop3] at h
  by_cases hg : 1 ≤ d ∧ d ≤ 4
  · rw [if_pos hg] at h
    by_cases he : udd.drop (udd.takeWhile isPyWs).length ++ (mdMarker ++ v) = []
    · exfalso
      have := congrArg List.length he
      simp [mdMarker, s2l] at this
    · rw [if_neg he] at h
      by_cases hr : ((udd.takeWhile isPyWs).reverse.takeWhile
          (fun c => ¬ c = '\n')).length < (udd.takeWhile isPyWs).length
      · rw [if_pos hr] at h
        rcases Option.some.inj h with h2
        have hjle : (udd.takeWhile isPyWs).length - 1 -
            ((udd.takeWhile isPyWs).reverse.takeWhile
              (fun c => ¬ c = '\n')).length ≤ udd.length := by omega
        have hdrop4 : ((udd ++ (mdMarker ++ v)).drop ((udd.takeWhile isPyWs).length - 1 -
            ((udd.takeWhile isPyWs).reverse.takeWhile
              (fun c => ¬ c = '\n')).length)) =
            udd.drop ((udd.takeWhile isPyWs).length - 1 -
              ((udd.takeWhile isPyWs).reverse.takeWhile
                (fun c => ¬ c = '\n')).length) ++ (mdMarker ++ v) :=
          List.drop_append_of_le_length hjle
        have hrem : rem = udd.drop ((udd.takeWhile isPyWs).length - 1 -
            ((udd.takeWhile isPyWs).reverse.takeWhile
              (fun c => ¬ c = '\n')).length) ++ (mdMarker ++ v) := by
          have h3 := congrArg Prod.fst h2
          simp only at h3
          rw [← h3]
          exact hdrop4
        refine ⟨w + d + ((udd.takeWhile isPyWs).length - 1 -
          ((udd.takeWhile isPyWs).reverse.takeWhile
            (fun c => ¬ c = '\n')).length), ?_, ?_, ?_⟩
        · omega
        · have h4 : udd.length = u.length - w - d := by
            rw [hudddef, huddef]
            simp only [List.length_drop]
          omega
        · rw [hrem, hudddef, huddef]
          rw [List.drop_drop, List.drop_drop]
          congr 2
          omega
      · rw [if_neg hr] at h
        cases h
  · rw [if_neg hg] at h
    cases h

end ZMD.Cleaner

namespace ZMD.Cleaner

theorem pnScanGo_emit (w : Str)
    (hw : ∀ c ∈ w, isPyWs c = false ∧ isDigitCh c = false ∧ c ≠ '\n') :
    ∀ n fl t, w.length ≤ n →
      pnScanGo n fl (w ++ t) =
        w ++ pnScanGo (n - w.length) (if w = [] then fl else false) t := by
  induction w with
  | nil =>
    intro n fl t _
    simp
  | cons c w' ih =>
    intro n fl t hlen
    cases n with
    | zero => simp at hlen
    | succ n' =>
      obtain ⟨hws, hd, hnl⟩ := hw c (List.mem_cons_self c w')
      have hw' : ∀ x ∈ w', isPyWs x = false ∧ isDigitCh x = false ∧ x ≠ '\n' :=
        fun x hx => hw x (List.mem_cons_of_mem c hx)
      have hflag : decide (c = '\n') = false := by simp [hnl]
      have hlen' : w'.length ≤ n' := by
        simp only [List.length_cons] at hlen
        omega
      have harith : n' + 1 - (c :: w').length = n' - w'.length := by
        simp only [List.length_cons]
        omega
      have hcw : (c :: w' = []) = False := by simp
      cases fl with
      | false =>
        show pnScanGo (n' + 1) false (c :: (w' ++ t)) = _
        simp only [pnScanGo]
        rw [hflag, ih hw' n' false t hlen']
        rw [harith]
        simp
      | true =>
        show pnScanGo (n' + 1) true (c :: (w' ++ t)) = _
        simp only [pnScanGo]
        rw [pnMatch_none_head c (w' ++ t) hws hd]
        simp only []
        rw [hflag, ih hw' n' false t hlen']
        rw [harith]
        simp

theorem pnScanGo_preserves :
    ∀ n fl s, s.length ≤ n → List.IsInfix mdMarker s →
      List.IsInfix mdMarker (pnScanGo n fl s) := by
  intro n
  induction n with
  | zero =>
    intro fl s _ hm
    exact hm
  | succ n ih =>
    intro fl s hlen hm
    rcases hm with ⟨u, v, rfl⟩
    cases u with
    | nil =>
      simp only [List.nil_append] at hlen ⊢
      rw [pnScanGo_emit mdMarker (by decide) (n + 1) fl v (by
        rw [List.length_append] at hlen
        omega)]
      exact ⟨[], _, rfl⟩
    | cons c u' =>
      have hlen2 : (u' ++ (mdMarker ++ v)).length ≤ n := by
        simp only [List.cons_append, List.length_cons, List.length_append,
          List.append_assoc] at hlen ⊢
        omega
      have hinf : List.IsInfix mdMarker (u' ++ (mdMarker ++ v)) :=
        ⟨u', v, by rw [List.append_assoc]⟩
      simp only [List.append_assoc, List.cons_append]
      cases fl with
      | false =>
        simp only [pnScanGo]
        exact isInfix_cons_ext _ _ _ (ih _ _ hlen2 hinf)
      | true =>
        simp only [pnScanGo]
        cases hpm : pnMatch (c :: (u' ++ (mdMarker ++ v))) with
        | none =>
          simp only [hpm]
          exact isInfix_cons_ext _ _ _ (ih _ _ hlen2 hinf)
        | some pr =>
          obtain ⟨rem, fl'⟩ := pr
          simp only [hpm]
          have hdec := pnMatch_some_decomp (c :: u') v rem fl' (by
            rw [show (c :: u') ++ (mdMarker ++ v) = c :: (u' ++ (mdMarker ++ v)) from
              rfl]
            exact hpm)
          rcases hdec with ⟨m, hm1, hm2, rfl⟩
          refine ih fl' _ ?_ ⟨(c :: u').drop m, v, by rw [List.append_assoc]⟩
          simp only [List.length_append, List.length_drop, List.length_cons] at hlen2 ⊢
          simp only [List.cons_append, List.length_cons] at hlen
          omega

theorem removePageNumbers_preserves (s : Str) (h : List.IsInfix mdMarker s) :
    List.IsInfix mdMarker (removePageNumbers s) :=
  pnScanGo_preserves s.length true s (le_refl _) h

end ZMD.Cleaner

namespace ZMD.Cleaner

/-- C8 (amended): the control-character removal, page-number removal,
blank-line collapse and final trim never destroy an occurrence of the
protected marker `<!--split-->` (each maps a text containing the marker to
a text still containing it); consequently, when the marker-unsafe rules
(image-summary rewrite, image-placeholder removal, HTML strip, watermark
removal) are disabled, `clean_markdown` preserves every marker occurrence
— also through the too-short fallback, which returns the original text. -/
theorem C8_marker_preserving_rules (cfg : MdCfg) (f g : Str → Str) (t : Str)
    (himg : cfg.imageSummaryEnabled = false)
    (hph : cfg.removeImagePlaceholders = false)
    (hhtml : cfg.stripHtml = false)
    (hwm : cfg.removeWatermark = false)
    (hmk : List.IsInfix (s2l "<!--split-->") t) :
    List.IsInfix (s2l "<!--split-->") (cleanMarkdown cfg f g t) ∧
    (∀ s, List.IsInfix (s2l "<!--split-->") s →
      List.IsInfix (s2l "<!--split-->") (removeControlChars s)) ∧
    (∀ s, List.IsInfix (s2l "<!--split-->") s →
      List.IsInfix (s2l "<!--split-->") (removePageNumbers s)) ∧
    (∀ s, List.IsInfix (s2l "<!--split-->") s →
      List.IsInfix (s2l "<!--split-->") (collapseBlankLines s)) ∧
    (∀ s, List.IsInfix (s2l "<!--split-->") s →
      List.IsInfix (s2l "<!--split-->") (pyStrip s)) := by
  refine ⟨?_, fun s h => removeControlChars_preserves s h,
    fun s h => removePageNumbers_preserves s h,
    fun s h => collapseBlankLines_preserves s h,
    fun s h => pyStrip_preserves s h⟩
  by_cases hen : cfg.enabled = false
  · simp only [cleanMarkdown]
    rw [if_pos hen]
    exact hmk
  · simp only [cleanMarkdown]
    rw [if_neg hen]
    by_cases ht0 : t = []
    · exfalso
      rcases hmk with ⟨u, v, he⟩
      rw [ht0] at he
      have := congrArg List.length he
      simp [s2l] at this
    · rw [if_neg ht0]
      have e0 : (if cfg.imageSummaryEnabled then f t else t) = t := by
        rw [himg]
        simp
      rw [e0]
      have e1 : (if cfg.removeImagePlaceholders then removeImagePlaceholders t else t)
          = t := by
        rw [hph]
        simp
      rw [e1]
      have e2 : (if cfg.stripHtml then stripHtmlTags t else t) = t := by
        rw [hhtml]
        simp
      rw [e2]
      set s3 := if cfg.removeControlChars then removeControlChars t else t with hs3
      have hi3 : List.IsInfix mdMarker s3 := by
        rw [hs3]
        by_cases hcc : cfg.removeControlChars = true
        · rw [if_pos hcc]
          exact removeControlChars_preserves t hmk
        · rw [if_neg hcc]
          exact hmk
      set s4 := if cfg.removePageNumbers then removePageNumbers s3 else s3 with hs4
      have hi4 : List.IsInfix mdMarker s4 := by
        rw [hs4]
        by_cases hpn : cfg.removePageNumbers = true
        · rw [if_pos hpn]
          exact removePageNumbers_preserves s3 hi3
        · rw [if_neg hpn]
          exact hi3
      have e5 : (if cfg.removeWatermark ∧ cfg.watermarkPatterns ≠ "" then g s4 else s4)
          = s4 := by
        rw [hwm]
        simp
      rw [e5]
      set s6 := if cfg.collapseBlankLines then collapseBlankLines s4 else s4 with hs6
      have hi6 : List.IsInfix mdMarker s6 := by
        rw [hs6]
        by_cases hcb : cfg.collapseBlankLines = true
        · rw [if_pos hcb]
          exact collapseBlankLines_preserves s4 hi4
        · rw [if_neg hcb]
          exact hi4
      have hi7 : List.IsInfix mdMarker (pyStrip s6) := pyStrip_preserves s6 hi6
      by_cases hfb : (pyStrip s6).length < 10 ∧ t.length ≥ 10
      · rw [if_pos hfb]
        exact hmk
      · rw [if_neg hfb]
        exact hi7

end ZMD.Cleaner

namespace ZMD.Cleaner

private def c8cfg : MdCfg :=
  { imageSummaryEnabled := false, removeImagePlaceholders := false,
    stripHtml := false, removePageNumbers := true }

private def c8txt : Str := s2l " 3\n<!--split-->\n\n\n\n7 "

theorem C8_marker_preserving_rules_witness :
    (c8cfg.imageSummaryEnabled = false ∧
      c8cfg.removeImagePlaceholders = false ∧
      c8cfg.stripHtml = false ∧
      c8cfg.removeWatermark = false ∧
      List.IsInfix (s2l "<!--split-->") c8txt) ∧
    (List.IsInfix (s2l "<!--split-->") (cleanMarkdown c8cfg id id c8txt) ∧
      (∀ s, List.IsInfix (s2l "<!--split-->") s →
        List.IsInfix (s2l "<!--split-->") (removeControlChars s)) ∧
      (∀ s, List.IsInfix (s2l "<!--split-->") s →
        List.IsInfix (s2l "<!--split-->") (removePageNumbers s)) ∧
      (∀ s, List.IsInfix (s2l "<!--split-->") s →
        List.IsInfix (s2l "<!--split-->") (collapseBlankLines s)) ∧
      (∀ s, List.IsInfix (s2l "<!--split-->") s →
        List.IsInfix (s2l "<!--split-->") (pyStrip s))) :=
  ⟨⟨rfl, rfl, rfl, rfl, by decide⟩,
    C8_marker_preserving_rules c8cfg id id c8txt rfl rfl rfl rfl (by decide)⟩

end ZMD.Cleaner

namespace ZMD.Cleaner

theorem findMdImageEnd_not_bang (s : Str) (h : ¬ ∃ r, s = '!' :: '[' :: r) :
    findMdImageEnd s = Option.none := by
  unfold findMdImageEnd
  split
  · rename_i rest
    exact absurd ⟨rest, rfl⟩ h
  · rfl

theorem matchPh_not_bang (s : Str) (h : ¬ ∃ r, s = '!' :: '[' :: r) :
    matchPh s = Option.none := by
  unfold matchPh
  split
  · rename_i rest
    exact absurd ⟨rest, rfl⟩ h
  · rfl

theorem bang_not_infix_head (c : Char) (rest : Str)
    (hnot : ¬ List.IsInfix (s2l "![") (c :: rest)) : ¬ ∃ r, c :: rest = '!' :: '[' :: r :=
  fun ⟨r, hr⟩ => hnot (by rw [hr]; exact ⟨[], r, rfl⟩)

theorem imgScanGo_id : ∀ n s, ¬ List.IsInfix (s2l "![") s → imgScanGo n s = s := by
  intro n
  induction n with
  | zero =>
    intro s _
    rfl
  | succ n ih =>
    intro s hnot
    cases s with
    | nil => rfl
    | cons c rest =>
      simp only [imgScanGo]
      rw [findMdImageEnd_not_bang _ (bang_not_infix_head c rest hnot)]
      rw [ih rest (fun hi => hnot (isInfix_cons_ext _ _ _ hi))]

theorem phSubGo_id : ∀ n s, ¬ List.IsInfix (s2l "![") s → phSubGo n s = s := by
  intro n
  induction n with
  | zero =>
    intro s _
    rfl
  | succ n ih =>
    intro s hnot
    cases s with
    | nil => rfl
    | cons c rest =>
      simp only [phSubGo]
      rw [matchPh_not_bang _ (bang_not_infix_head c rest hnot)]
      rw [ih rest (fun hi => hnot (isInfix_cons_ext _ _ _ hi))]

theorem removeImagePlaceholders_id (s : Str) (hnot : ¬ List.IsInfix (s2l "![") s) :
    removeImagePlaceholders s = s := by
  unfold removeImagePlaceholders
  rw [imgScanGo_id s.length s hnot]
  exact phSubGo_id s.length s hnot

theorem pyReplace_id (pat rep : Str) :
    ∀ n s, ¬ List.IsInfix pat s → pyReplace pat rep n s = s := by
  intro n
  induction n with
  | zero =>
    intro s _
    rfl
  | succ n ih =>
    intro s hnot
    cases s with
    | nil => rfl
    | cons c rest =>
      have hcond : ¬ (pat ≠ [] ∧ pat.isPrefixOf (c :: rest)) := by
        rintro ⟨-, hpre⟩
        rcases List.isPrefixOf_iff_prefix.1 hpre with ⟨t2, ht⟩
        exact hnot ⟨[], t2, by simp [ht]⟩
      simp only [pyReplace]
      rw [if_neg hcond]
      rw [ih rest (fun hi => hnot (isInfix_cons_ext _ _ _ hi))]

theorem tagSubGo_id : ∀ n s, '<' ∉ s → tagSubGo n s = s := by
  intro n
  induction n with
  | zero =>
    intro s _
    rfl
  | succ n ih =>
    intro s hnot
    cases s with
    | nil => rfl
    | cons c rest =>
      have hc : ¬ c = '<' := fun he => hnot (he ▸ List.mem_cons_self c rest)
      simp only [tagSubGo]
      rw [if_neg hc]
      rw [ih rest (fun hi => hnot (List.mem_cons_of_mem c hi))]

theorem stripHtmlTags_id (s : Str) (h1 : '<' ∉ s)
    (h2 : ¬ List.IsInfix markerToken s) : stripHtmlTags s = s := by
  have hmk : ¬ List.IsInfix mdMarker s := by
    rintro ⟨u, v, rfl⟩
    exact h1 (List.mem_append.2 (Or.inl (List.mem_append.2
      (Or.inr (by decide)))))
  simp only [stripHtmlTags]
  rw [show pyReplaceAll mdMarker markerToken s = s from pyReplace_id _ _ _ s hmk]
  rw [tagSubGo_id s.length s h1]
  exact pyReplace_id _ _ _ s h2

theorem removeControlChars_id (s : Str) (h : ∀ c ∈ s, isCtrlRM c = false) :
    removeControlChars s = s := by
  unfold removeControlChars
  refine List.filter_eq_self.mpr (fun a ha => ?_)
  rw [h a ha]
  rfl

theorem pnMatch_no_digits (s : Str) (h : ∀ c ∈ s, isDigitCh c = false) :
    pnMatch s = Option.none := by
  have hs1 : ((s.drop (s.takeWhile isPyWs).length).takeWhile isDigitCh) = [] := by
    cases h1 : s.drop (s.takeWhile isPyWs).length with
    | nil => rfl
    | cons a t =>
      have ha : a ∈ s := List.drop_subset _ s (h1 ▸ List.mem_cons_self a t)
      rw [List.takeWhile_cons, h a ha]
      simp
  simp [pnMatch, hs1]

theorem pnScanGo_id : ∀ n fl s, (∀ c ∈ s, isDigitCh c = false) →
    pnScanGo n fl s = s := by
  intro n
  induction n with
  | zero =>
    intro fl s _
    rfl
  | succ n ih =>
    intro fl s hnd
    cases s with
    | nil =>
      cases fl <;> rfl
    | cons c rest =>
      have hrest : ∀ x ∈ rest, isDigitCh x = false :=
        fun x hx => hnd x (List.mem_cons_of_mem c hx)
      cases fl with
      | false =>
        simp only [pnScanGo]
        rw [ih _ rest hrest]
      | true =>
        simp only [pnScanGo]
        rw [pnMatch_no_digits (c :: rest) hnd]
        rw [ih _ rest hrest]

theorem removePageNumbers_id (s : Str) (h : ∀ c ∈ s, isDigitCh c = false) :
    removePageNumbers s = s :=
  pnScanGo_id s.length true s h

theorem takeWhile_two_of_le (p : Char → Bool) (l : Str)
    (h : 2 ≤ (l.takeWhile p).length) :
    ∃ a b r, l = a :: b :: r ∧ p a = true ∧ p b = true := by
  cases l with
  | nil => simp at h
  | cons a t =>
    rw [List.takeWhile_cons] at h
    by_cases hp : p a
    · cases t with
      | nil =>
        simp [hp] at h
      | cons b r =>
        rw [List.takeWhile_cons] at h
        by_cases hq : p b
        · exact ⟨a, b, r, rfl, hp, hq⟩
        · simp [hp, hq] at h
    · simp [hp] at h

theorem collapseGo_id : ∀ n s, ¬ List.IsInfix (s2l "


") s →
    collapseGo n s = s := by
  intro n
  induction n with
  | zero =>
    intro s _
    rfl
  | succ n ih =>
    intro s hnot
    cases s with
    | nil => rfl
    | cons c rest =>
      simp only [collapseGo]
      by_cases hc : c = '\n'
      · rw [if_pos hc]
        have h3 : ¬ 3 ≤ 1 + (rest.takeWhile (fun x => decide (x = '\n'))).length := by
          intro h3
          have h2le : 2 ≤ (rest.takeWhile (fun x => decide (x = '\n'))).length := by
            omega
          obtain ⟨a, b, r, hr, hpa, hpb⟩ := takeWhile_two_of_le _ rest h2le
          refine hnot ⟨[], r, ?_⟩
          rw [hr, hc]
          simp only [List.nil_append]
          rw [show a = '\n' from by simpa using hpa, show b = '\n' from by simpa using hpb]
          rfl
        rw [if_neg h3]
        rw [ih rest (fun hi => hnot (isInfix_cons_ext _ _ _ hi))]
      · rw [if_neg hc]
        rw [ih rest (fun hi => hnot (isInfix_cons_ext _ _ _ hi))]

theorem collapseBlankLines_id (s : Str) (h : ¬ List.IsInfix (s2l "


") s) :
    collapseBlankLines s = s :=
  collapseGo_id s.length s h

end ZMD.Cleaner

namespace ZMD.Cleaner

/-- C9 (amended): with the vision-LLM image-summary feature disabled and
watermark removal off (a pure cleaner), `clean_markdown` is idempotent on
every input whose cleaned output contains no `![` (so neither image pass
can fire again), no `<` (so the HTML strip is inert), no
`__MD_SPLIT_MARKER__` token, no control characters in the removed class,
no digits when page-number removal is enabled, no `\n\n\n` run, and is
already stripped of outer whitespace.  Without such conditions the cleaner
is not idempotent (see the counterexample). -/
theorem C9_conditional_idempotence (cfg : MdCfg) (f g : Str → Str) (t : Str)
    (himg : cfg.imageSummaryEnabled = false)
    (hwm : cfg.removeWatermark = false)
    (h1 : ¬ List.IsInfix (s2l "![") (cleanMarkdown cfg f g t))
    (h2 : '<' ∉ cleanMarkdown cfg f g t)
    (h3 : ¬ List.IsInfix markerToken (cleanMarkdown cfg f g t))
    (h4 : ∀ c ∈ cleanMarkdown cfg f g t, isCtrlRM c = false)
    (h5 : cfg.removePageNumbers = false ∨
      ∀ c ∈ cleanMarkdown cfg f g t, isDigitCh c = false)
    (h6 : ¬ List.IsInfix (s2l "\n\n\n") (cleanMarkdown cfg f g t))
    (h7 : pyStrip (cleanMarkdown cfg f g t) = cleanMarkdown cfg f g t) :
    cleanMarkdown cfg f g (cleanMarkdown cfg f g t) = cleanMarkdown cfg f g t := by
  set o := cleanMarkdown cfg f g t with hodef
  by_cases hen : cfg.enabled = false
  · simp only [cleanMarkdown]
    rw [if_pos hen]
  · simp only [cleanMarkdown]
    rw [if_neg hen]
    by_cases ho0 : o = []
    · rw [if_pos ho0, ho0]
    · rw [if_neg ho0]
      have e0 : (if cfg.imageSummaryEnabled then f o else o) = o := by
        rw [himg]
        simp
      rw [e0]
      have e1 : (if cfg.removeImagePlaceholders then removeImagePlaceholders o else o)
          = o := by
        by_cases hb : cfg.removeImagePlaceholders = true
        · rw [if_pos hb]
          exact removeImagePlaceholders_id o h1
        · rw [if_neg hb]
      rw [e1]
      have e2 : (if cfg.stripHtml then stripHtmlTags o else o) = o := by
        by_cases hb : cfg.stripHtml = true
        · rw [if_pos hb]
          exact stripHtmlTags_id o h2 h3
        · rw [if_neg hb]
      rw [e2]
      have e3 : (if cfg.removeControlChars then removeControlChars o else o) = o := by
        by_cases hb : cfg.removeControlChars = true
        · rw [if_pos hb]
          exact removeControlChars_id o h4
        · rw [if_neg hb]
      rw [e3]
      have e4 : (if cfg.removePageNumbers then removePageNumbers o else o) = o := by
        by_cases hb : cfg.removePageNumbers = true
        · rw [if_pos hb]
          rcases h5 with h5 | h5
          · rw [hb] at h5
            cases h5
          · exact removePageNumbers_id o h5
        · rw [if_neg hb]
      rw [e4]
      have e5 : (if cfg.removeWatermark ∧ cfg.watermarkPatterns ≠ "" then g o else o)
          = o := by
        rw [hwm]
        simp
      rw [e5]
      have e6 : (if cfg.collapseBlankLines then collapseBlankLines o else o) = o := by
        by_cases hb : cfg.collapseBlankLines = true
        · rw [if_pos hb]
          exact collapseBlankLines_id o h6
        · rw [if_neg hb]
      rw [e6]
      rw [h7]
      rw [if_neg (by omega)]

theorem C9_conditional_idempotence_witness :
    (({ imageSummaryEnabled := false } : MdCfg).imageSummaryEnabled = false ∧
      ({ imageSummaryEnabled := false } : MdCfg).removeWatermark = false ∧
      ¬ List.IsInfix (s2l "![")
        (cleanMarkdown { imageSummaryEnabled := false } id id (s2l "hello worlds!")) ∧
      '<' ∉ cleanMarkdown { imageSummaryEnabled := false } id id (s2l "hello worlds!") ∧
      ¬ List.IsInfix markerToken
        (cleanMarkdown { imageSummaryEnabled := false } id id (s2l "hello worlds!")) ∧
      (∀ c ∈ cleanMarkdown { imageSummaryEnabled := false } id id (s2l "hello worlds!"),
        isCtrlRM c = false) ∧
      (({ imageSummaryEnabled := false } : MdCfg).removePageNumbers = false ∨
        ∀ c ∈ cleanMarkdown { imageSummaryEnabled := false } id id (s2l "hello worlds!"),
          isDigitCh c = false) ∧
      ¬ List.IsInfix (s2l "\n\n\n")
        (cleanMarkdown { imageSummaryEnabled := false } id id (s2l "hello worlds!")) ∧
      pyStrip (cleanMarkdown { imageSummaryEnabled := false } id id (s2l "hello worlds!"))
        = cleanMarkdown { imageSummaryEnabled := false } id id (s2l "hello worlds!")) ∧
    cleanMarkdown { imageSummaryEnabled := false } id id
        (cleanMarkdown { imageSummaryEnabled := false } id id (s2l "hello worlds!")) =
      cleanMarkdown { imageSummaryEnabled := false } id id (s2l "hello worlds!") :=
  ⟨⟨rfl, rfl, by decide, by decide, by decide, by decide, Or.inl rfl, by decide,
      by decide⟩,
    C9_conditional_idempotence { imageSummaryEnabled := false } id id
      (s2l "hello worlds!") rfl rfl (by decide) (by decide) (by decide) (by decide)
      (Or.inl rfl) (by decide) (by decide)⟩

end ZMD.Cleaner
